import Mathlib


/-!
# Verification of the Cpp2C soundness development

This file embeds, in Lean 4, the data model and operational semantics of the
Cpp2C macro-to-function transformation engine, translated from the Coq
development (`EvalRules.v`, `Theorems.v`) that ships with the repository, and
settles the specification claims against it.

Finite maps (`Coq.FSets.FMapList` over `String`/`nat` keys in the source) are
embedded as association lists with first-binding-wins lookup; `Equal`,
`MapsTo`, `In`, `add`, `remove`, `update`, `restrict`, `Disjoint` and
`of_list (combine ...)` are translated to the operations below, which agree
with the FMap interface on every lookup.
-/

section Maps


variable {α β : Type} [DecidableEq α]


/-- Lookup of the first binding of a key in an association list
(the behaviour of `FMap.find` on the source's maps). -/
def mfind? : List (α × β) → α → Option β
  | [], _ => none
  | (k, v) :: t, k' => if k = k' then some v else mfind? t k'


/-- `FMap.MapsTo`: the key is bound, and to this value. -/
def MapsTo (k : α) (v : β) (m : List (α × β)) : Prop :=
  mfind? m k = some v


/-- `FMap.In`: the key is bound in the map. -/
def MIn (k : α) (m : List (α × β)) : Prop :=
  (mfind? m k).isSome = true


/-- `FMap.add`: bind a key, shadowing any previous binding. -/
def madd (k : α) (v : β) (m : List (α × β)) : List (α × β) :=
  (k, v) :: m


/-- `FMap.remove`: drop every binding of a key. -/
def mremove (k : α) (m : List (α × β)) : List (α × β) :=
  m.filter (fun p => !(decide (p.1 = k)))


/-- `FMapProperties.update m1 m2`: union in which `m2`'s bindings win. -/
def mupdate (m1 m2 : List (α × β)) : List (α × β) :=
  m2 ++ m1


/-- `FMapProperties.restrict m1 m2`: keep the bindings of `m1` whose key is
bound in `m2`. -/
def mrestrict (m1 m2 : List (α × β)) : List (α × β) :=
  m1.filter (fun p => (mfind? m2 p.1).isSome)


/-- `FMap.Equal`: the two maps agree on every lookup. -/
def MEqual (m1 m2 : List (α × β)) : Prop :=
  ∀ k, mfind? m1 k = mfind? m2 k


/-- `FMapProperties.Disjoint`: no key is bound in both maps. -/
def MDisjoint (m1 m2 : List (α × β)) : Prop :=
  ∀ k, ¬ (MIn k m1 ∧ MIn k m2)


end Maps


/-!
## Syntax

Translated from the source's `Syntax.v` (the file itself is not under `src/`;
the constructor set below is the one used throughout `EvalRules.v` and
`Theorems.v`, and the operator sets are modelled from the spec).
-/

/-- Modelled from the spec: `Syntax.v` is not in the provided sources.  Unary
operators of the minimal AST (§3 of the spec: `Unary(op, e)`); `Deref` is
included because the spec's scenario about `A_THEN_B(p, *p)` requires a
pointer-dereference argument.  The model gives dereference no memory
semantics (the spec's analyzers treat it purely structurally). -/
inductive Unop where
  | Negative
  | LogicalNot
  | Deref
deriving DecidableEq, Repr


def unop_to_op : Unop → Int → Int
  | .Negative, v => -v
  | .LogicalNot, v => if v = 0 then 1 else 0
  | .Deref, v => v


/-- Modelled from the spec: binary operators of the minimal AST
(§3: `Binary(op, e1, e2)`); `And`/`Or` are the non-short-circuit integer
versions, matching `E_BinExpr` of `EvalRules.v`, which always evaluates both
operands. -/
inductive Binop where
  | Plus
  | Sub
  | Mul
  | And
  | Or
deriving DecidableEq, Repr


def binop_to_op : Binop → Int → Int → Int
  | .Plus, a, b => a + b
  | .Sub, a, b => a - b
  | .Mul, a, b => a * b
  | .And, a, b => if a ≠ 0 ∧ b ≠ 0 then 1 else 0
  | .Or, a, b => if a ≠ 0 ∨ b ≠ 0 then 1 else 0


/-- The expression AST of `Syntax.v`, as used by `EvalRules.v`:
`Num`, `Var`, `ParenExpr`, `UnExpr`, `BinExpr`, `Assign`,
`CallOrInvocation`. -/
inductive Expr where
  | Num (z : Int)
  | Var (x : String)
  | ParenExpr (e0 : Expr)
  | UnExpr (uo : Unop) (e0 : Expr)
  | BinExpr (bo : Binop) (e1 e2 : Expr)
  | Assign (x : String) (e0 : Expr)
  | CallOrInvocation (x : String) (es : List Expr)


/-- The statement AST of `Syntax.v` (the source's `Expr` statement
constructor is named `ExprStmt` here to avoid clashing with the type). -/
inductive Stmt where
  | Skip
  | ExprStmt (e0 : Expr)
  | IfElse (cond : Expr) (s1 s2 : Stmt)
  | While (cond : Expr) (s0 : Stmt)
  | Compound (ss : List Stmt)


/-- `store`: L-values to R-values (`NatMap Z` in the source). -/
abbrev Store := List (Nat × Int)


/-- `environment`: names to L-values (`StringMap nat` in the source). -/
abbrev Env := List (String × Nat)


/-- `function_definition`: parameter list, statement body, return
expression. -/
abbrev FunctionDefinition := List String × Stmt × Expr


/-- `function_table`. -/
abbrev FunctionTable := List (String × FunctionDefinition)


/-- `macro_definition`: parameter list and body expression. -/
abbrev MacroDefinition := List String × Expr


/-- `macro_table`. -/
abbrev MacroTable := List (String × MacroDefinition)


/-!
## Static analyzers

`SideEffects.v`, `NoVarsInEnvironment.v` and `NoMacroInvocations.v` are not
under `src/`; the predicates below are reconstructed from the spec (§4.1–4.3)
and from the way `Theorems.v` uses them.
-/

/-- Modelled from the spec: `SideEffects.v` is not in the provided sources.
The side-effect analyzer (§4.1): `Num`/`Var` are side-effect free,
`Paren`/`Unary` recurse, `Binary` is side-effecting if either operand is,
`Assign` always is.  `CallOrInvocation` is conservatively always flagged:
this is the reconstruction forced by `Theorems.v`, whose proofs use
`not_ExprHasSideEffects_ExprNoCallsFromFunctionTable` and
`not_ExprHasSideEffects_ExprNoMacroInvocations` — both true only if every
call/invocation node is flagged (the spec's "forward reference or unresolved
name is treated conservatively as having side effects" endpoint). -/
def ExprHasSideEffects : Expr → Bool
  | .Num _ => false
  | .Var _ => false
  | .ParenExpr e0 => ExprHasSideEffects e0
  | .UnExpr _ e0 => ExprHasSideEffects e0
  | .BinExpr _ e1 e2 => ExprHasSideEffects e1 || ExprHasSideEffects e2
  | .Assign _ _ => true
  | .CallOrInvocation _ _ => true


mutual


/-- Modelled from the spec: `NoVarsInEnvironment.v` is not in the provided
sources.  `NoVarsInEnvironment(expr, callerEnv)` (§4.2): true iff no `Var`
node inside the expression names an identifier bound in the local caller
environment; structurally compositional, `Var` is the only node that can
falsify the predicate. -/
def ExprNoVarsInEnvironmentB : Expr → Env → Bool
  | .Num _, _ => true
  | .Var x, E => !(mfind? E x).isSome
  | .ParenExpr e0, E => ExprNoVarsInEnvironmentB e0 E
  | .UnExpr _ e0, E => ExprNoVarsInEnvironmentB e0 E
  | .BinExpr _ e1 e2, E =>
      ExprNoVarsInEnvironmentB e1 E && ExprNoVarsInEnvironmentB e2 E
  | .Assign _ e0, E => ExprNoVarsInEnvironmentB e0 E
  | .CallOrInvocation _ es, E => ExprListNoVarsInEnvironmentB es E


/-- List version of `ExprNoVarsInEnvironmentB` (recursion into argument
lists). -/
def ExprListNoVarsInEnvironmentB : List Expr → Env → Bool
  | [], _ => true
  | e :: es, E =>
      ExprNoVarsInEnvironmentB e E && ExprListNoVarsInEnvironmentB es E


end


mutual


/-- Modelled from the spec: `NoMacroInvocations.v` is not in the provided
sources.  `NoMacroInvocations(expr, functionTable, macroTable)` (§4.3): true
iff no `Invocation` node inside the expression (or its arguments,
recursively) resolves to an entry in the macro table; an invocation that
resolves only to the function table does not falsify the predicate. -/
def ExprNoMacroInvocationsB : Expr → FunctionTable → MacroTable → Bool
  | .Num _, _, _ => true
  | .Var _, _, _ => true
  | .ParenExpr e0, F, Mt => ExprNoMacroInvocationsB e0 F Mt
  | .UnExpr _ e0, F, Mt => ExprNoMacroInvocationsB e0 F Mt
  | .BinExpr _ e1 e2, F, Mt =>
      ExprNoMacroInvocationsB e1 F Mt && ExprNoMacroInvocationsB e2 F Mt
  | .Assign _ e0, F, Mt => ExprNoMacroInvocationsB e0 F Mt
  | .CallOrInvocation x es, F, Mt =>
      !(mfind? Mt x).isSome && ExprListNoMacroInvocationsB es F Mt


/-- List version of `ExprNoMacroInvocationsB`. -/
def ExprListNoMacroInvocationsB : List Expr → FunctionTable → MacroTable → Bool
  | [], _, _ => true
  | e :: es, F, Mt =>
      ExprNoMacroInvocationsB e F Mt && ExprListNoMacroInvocationsB es F Mt


end


mutual


/-- Whether the expression contains an `Assign` node anywhere (used to state
the spec's "`Assign(_, _)`: always true" conservativeness claim). -/
def ExprContainsAssign : Expr → Bool
  | .Num _ => false
  | .Var _ => false
  | .ParenExpr e0 => ExprContainsAssign e0
  | .UnExpr _ e0 => ExprContainsAssign e0
  | .BinExpr _ e1 e2 => ExprContainsAssign e1 || ExprContainsAssign e2
  | .Assign _ _ => true
  | .CallOrInvocation _ es => ExprListContainsAssign es


/-- List version of `ExprContainsAssign`. -/
def ExprListContainsAssign : List Expr → Bool
  | [] => false
  | e :: es => ExprContainsAssign e || ExprListContainsAssign es


end


/-- Whether the expression contains no `CallOrInvocation` node at all (the
property the source calls `ExprNoCallsFromFunctionTable` specialised by
`not_ExprHasSideEffects_ExprNoCallsFromFunctionTable`: a side-effect-free
expression contains no calls). -/
def ExprNoCallsB : Expr → Bool
  | .Num _ => true
  | .Var _ => true
  | .ParenExpr e0 => ExprNoCallsB e0
  | .UnExpr _ e0 => ExprNoCallsB e0
  | .BinExpr _ e1 e2 => ExprNoCallsB e1 && ExprNoCallsB e2
  | .Assign _ e0 => ExprNoCallsB e0
  | .CallOrInvocation _ _ => false


/-!
## Macro substitution

Translated from `MSub`/`MSubList`/`MacroSubst` of `EvalRules.v`.  The two
mutually-recursive relations `MSub` and `MSubList` are embedded as a single
inductive over a judgment index (`MSubKind`) so that Lean's `induction`
tactic provides the mutual induction scheme (`MSub_mut` in the source);
constructors are in one-to-one correspondence with the source's.
-/


/-- Judgment forms for single-parameter macro substitution. -/
inductive MSubKind where
  | one (p : String) (e : Expr) (e0 e0' : Expr)
  | lst (p : String) (e : Expr) (es es' : List Expr)


/-- `MSub`/`MSubList` of `EvalRules.v`: substitution of expression `e` for
parameter `p`, one parameter at a time. -/
inductive MSubJ : MSubKind → Prop where
  | MS_Num : ∀ p e z, MSubJ (.one p e (.Num z) (.Num z))
  | MS_Var_Replace : ∀ p e x, p = x → MSubJ (.one p e (.Var x) e)
  | MS_Var_No_Replace : ∀ p e x, p ≠ x → MSubJ (.one p e (.Var x) (.Var x))
  | MS_PareExpr : ∀ p e e0 e0',
      MSubJ (.one p e e0 e0') →
      MSubJ (.one p e (.ParenExpr e0) (.ParenExpr e0'))
  | MS_UnExpr : ∀ p e uo e0 e0',
      MSubJ (.one p e e0 e0') →
      MSubJ (.one p e (.UnExpr uo e0) (.UnExpr uo e0'))
  | MS_BinExpr : ∀ p e bo e1 e2 e1' e2',
      MSubJ (.one p e e1 e1') →
      MSubJ (.one p e e2 e2') →
      MSubJ (.one p e (.BinExpr bo e1 e2) (.BinExpr bo e1' e2'))
  | MS_Assign_Replace : ∀ p e x y e0 e0',
      p = x →
      e = .Var y →
      MSubJ (.one p e e0 e0') →
      MSubJ (.one p e (.Assign x e0) (.Assign y e0'))
  | MS_Assign_No_Replace : ∀ p e x e0 e0',
      p ≠ x →
      MSubJ (.one p e e0 e0') →
      MSubJ (.one p e (.Assign x e0) (.Assign x e0'))
  | MS_Call_Or_Invocation : ∀ p e x es es',
      MSubJ (.lst p e es es') →
      MSubJ (.one p e (.CallOrInvocation x es) (.CallOrInvocation x es'))
  | MSL_nil : ∀ p e, MSubJ (.lst p e [] [])
  | MSL_cons : ∀ p e e0 e0' es0 es0',
      MSubJ (.one p e e0 e0') →
      MSubJ (.lst p e es0 es0') →
      MSubJ (.lst p e (e0 :: es0) (e0' :: es0'))


/-- `MSub p e e0 e0'` of `EvalRules.v`. -/
abbrev MSub (p : String) (e e0 e0' : Expr) : Prop :=
  MSubJ (.one p e e0 e0')


/-- `MSubList p e es es'` of `EvalRules.v`. -/
abbrev MSubList (p : String) (e : Expr) (es es' : List Expr) : Prop :=
  MSubJ (.lst p e es es')


/-- `MacroSubst` of `EvalRules.v`: macro substitution for a list of
parameters and the expressions replacing them. -/
inductive MacroSubst : List String → List Expr → Expr → Expr → Prop where
  | MacroSubst_nil : ∀ mexpr, MacroSubst [] [] mexpr mexpr
  | MacroSubst_cons : ∀ p e ps es mexpr ef ef',
      MSub p e mexpr ef →
      MacroSubst ps es ef ef' →
      MacroSubst (p :: ps) (e :: es) mexpr ef'


/-!
## Big-step operational semantics

Translated from `EvalExpr`/`EvalExprList`/`EvalStmt` of `EvalRules.v`.  The
three mutually-recursive relations are embedded as a single inductive over a
judgment index (`EvKind`) so that Lean's `induction` tactic provides the
mutual induction scheme (`EvalExpr_mut`/`EvalStmt_mut`/`EvalExprList_mut` in
the source); constructors are in one-to-one correspondence with the
source's, including each store-`Equal` premise.
-/


/-- Judgment forms of the big-step semantics: expression evaluation
(store, local env, global env, function table, macro table, expression,
value, final store), argument-list evaluation (adding the callee
environment, argument store, fresh L-value and L-value list), and statement
evaluation. -/
inductive EvKind where
  | Exp (S : Store) (E G : Env) (F : FunctionTable) (Mt : MacroTable)
        (e : Expr) (v : Int) (S' : Store)
  | Lst (Sprev : Store) (Ecaller G : Env) (F : FunctionTable)
        (Mt : MacroTable) (ps : List String) (es : List Expr)
        (vs : List Int) (Snext : Store) (Ef : Env) (Sargs : Store)
        (l : Nat) (ls : List Nat)
  | Stm (S : Store) (E G : Env) (F : FunctionTable) (Mt : MacroTable)
        (s : Stmt) (S' : Store)


/-- The big-step evaluation relations of `EvalRules.v`. -/
inductive Ev : EvKind → Prop where
  | E_Num : ∀ S E G F Mt z S',
      MEqual S S' →
      Ev (.Exp S E G F Mt (.Num z) z S')
  | E_LocalVar : ∀ S E G F Mt x l v S',
      MEqual S S' →
      MapsTo x l E →
      MapsTo l v S →
      Ev (.Exp S E G F Mt (.Var x) v S')
  | E_GlobalVar : ∀ S E G F Mt x l v S',
      MEqual S S' →
      ¬ MIn x E →
      MapsTo x l G →
      MapsTo l v S →
      Ev (.Exp S E G F Mt (.Var x) v S')
  | E_ParenExpr : ∀ S E G F Mt e0 v S',
      Ev (.Exp S E G F Mt e0 v S') →
      Ev (.Exp S E G F Mt (.ParenExpr e0) v S')
  | E_UnExpr : ∀ S E G F Mt S' uo e0 v,
      Ev (.Exp S E G F Mt e0 v S') →
      Ev (.Exp S E G F Mt (.UnExpr uo e0) (unop_to_op uo v) S')
  | E_BinExpr : ∀ S E G F Mt bo e1 e2 v1 v2 S' S'',
      Ev (.Exp S E G F Mt e1 v1 S') →
      Ev (.Exp S' E G F Mt e2 v2 S'') →
      Ev (.Exp S E G F Mt (.BinExpr bo e1 e2) (binop_to_op bo v1 v2) S'')
  | E_Assign_Local : ∀ S E G F Mt l x e0 v S' S'',
      MapsTo x l E →
      Ev (.Exp S E G F Mt e0 v S') →
      MEqual S'' (mupdate S (madd l v [])) →
      Ev (.Exp S E G F Mt (.Assign x e0) v S'')
  | E_Assign_Global : ∀ S E G F Mt l x e0 v S' S'',
      ¬ MIn x E →
      MapsTo x l G →
      Ev (.Exp S E G F Mt e0 v S') →
      MEqual S'' (mupdate S (madd l v [])) →
      Ev (.Exp S E G F Mt (.Assign x e0) v S'')
  | E_FunctionCall : ∀ S E G F Mt x es params fstmt fexpr l ls Ef Sargs
        S' S'' S''' S'''' S''''' v vs,
      ¬ MIn x Mt →
      MapsTo x (params, fstmt, fexpr) F →
      params.Nodup →
      Ev (.Lst S E G F Mt params es vs S' Ef Sargs l ls) →
      MEqual Ef (params.zip ls) →
      MEqual Sargs (ls.zip vs) →
      MDisjoint S' Sargs →
      MEqual S'' (mupdate S' Sargs) →
      Ev (.Stm S'' Ef G F Mt fstmt S''') →
      Ev (.Exp S''' Ef G F Mt fexpr v S'''') →
      MEqual S''''' (mrestrict S'''' S) →
      Ev (.Exp S E G F Mt (.CallOrInvocation x es) v S''''')
  | E_MacroInvocation : ∀ S E G F Mt x params es mexpr M' ef S' v,
      MapsTo x (params, mexpr) Mt →
      M' = mremove x Mt →
      params.Nodup →
      MacroSubst params es mexpr ef →
      Ev (.Exp S E G F M' ef v S') →
      Ev (.Exp S E G F Mt (.CallOrInvocation x es) v S')
  | E_ExprList_nil : ∀ Sprev Ecaller G F Mt Snext,
      MEqual Sprev Snext →
      Ev (.Lst Sprev Ecaller G F Mt [] [] [] Snext [] [] 1 [0])
  | E_ExprList_cons : ∀ Sprev Ecaller G F Mt p e v Snext ps es vs Sfinal
        Ef' Sargs' l ls,
      Ev (.Exp Sprev Ecaller G F Mt e v Snext) →
      Ev (.Lst Snext Ecaller G F Mt ps es vs Sfinal Ef' Sargs' l ls) →
      ¬ MIn l Sargs' →
      (p :: ps).Nodup →
      ¬ MIn p Ef' →
      Ev (.Lst Sprev Ecaller G F Mt (p :: ps) (e :: es) (v :: vs) Sfinal
            (madd p l Ef') (madd l v Sargs') l (l :: ls))
  | E_Skip : ∀ S E G F Mt S',
      MEqual S S' →
      Ev (.Stm S E G F Mt .Skip S')
  | E_Expr : ∀ S E G F Mt e0 v S',
      Ev (.Exp S E G F Mt e0 v S') →
      Ev (.Stm S E G F Mt (.ExprStmt e0) S')
  | E_IfElseFalse : ∀ S E G F Mt cond v S' s1 s2 S'',
      Ev (.Exp S E G F Mt cond v S') →
      v = 0 →
      Ev (.Stm S' E G F Mt s2 S'') →
      Ev (.Stm S E G F Mt (.IfElse cond s1 s2) S'')
  | E_IfElseTrue : ∀ S E G F Mt cond v S' s1 s2 S'',
      Ev (.Exp S E G F Mt cond v S') →
      v ≠ 0 →
      Ev (.Stm S' E G F Mt s1 S'') →
      Ev (.Stm S E G F Mt (.IfElse cond s1 s2) S'')
  | E_WhileFalse : ∀ S E G F Mt cond v S' s0,
      Ev (.Exp S E G F Mt cond v S') →
      v = 0 →
      Ev (.Stm S E G F Mt (.While cond s0) S')
  | E_WhileTrue : ∀ S E G F Mt cond v S' s0 S'' S''',
      Ev (.Exp S E G F Mt cond v S') →
      v ≠ 0 →
      Ev (.Stm S' E G F Mt s0 S'') →
      Ev (.Stm S'' E G F Mt (.While cond s0) S''') →
      Ev (.Stm S E G F Mt (.While cond s0) S''')
  | E_CompoundStmt_nil : ∀ S E G F Mt S',
      MEqual S S' →
      Ev (.Stm S E G F Mt (.Compound []) S')
  | E_CompoundStmt_cons : ∀ S E G F Mt s ss S' S'',
      Ev (.Stm S E G F Mt s S') →
      Ev (.Stm S' E G F Mt (.Compound ss) S'') →
      Ev (.Stm S E G F Mt (.Compound (s :: ss)) S'')


/-- `EvalExpr S E G F M e v S'` of `EvalRules.v`. -/
abbrev EvalExpr (S : Store) (E G : Env) (F : FunctionTable)
    (Mt : MacroTable) (e : Expr) (v : Int) (S' : Store) : Prop :=
  Ev (.Exp S E G F Mt e v S')


/-- `EvalExprList` of `EvalRules.v`. -/
abbrev EvalExprList (Sprev : Store) (Ecaller G : Env) (F : FunctionTable)
    (Mt : MacroTable) (ps : List String) (es : List Expr) (vs : List Int)
    (Snext : Store) (Ef : Env) (Sargs : Store) (l : Nat)
    (ls : List Nat) : Prop :=
  Ev (.Lst Sprev Ecaller G F Mt ps es vs Snext Ef Sargs l ls)


/-- `EvalStmt S E G F M s S'` of `EvalRules.v`. -/
abbrev EvalStmt (S : Store) (E G : Env) (F : FunctionTable)
    (Mt : MacroTable) (s : Stmt) (S' : Store) : Prop :=
  Ev (.Stm S E G F Mt s S')


/-!
## Transformability decision procedure

The C++ implementation of the decision procedure is not under `src/` (only
its test fixtures and its logging sink are); it is modelled here from the
spec's §4.4 decision table.
-/

/-- Modelled from the spec: transformation strategies (§4.4). -/
inductive TransformationStrategy where
  | ObjectLikeToNullaryFunction
  | FunctionLikeToFunction
deriving DecidableEq, Repr


/-- Modelled from the spec: the closed taxonomy of rejection reasons (§7). -/
inductive NotTransformableReason where
  | ArityMismatch
  | MalformedMacro
  | NestedMacro
  | CapturesCallerScope
  | UnsafeArgument
  | SideEffectingBody
deriving DecidableEq, Repr


/-- Modelled from the spec: the per-site transformation verdict (§3). -/
inductive TransformationVerdict where
  | Transformable (strategy : TransformationStrategy)
  | NotTransformable (reason : NotTransformableReason)
deriving DecidableEq, Repr


/-- Whether the expression is exactly a bare variable reference (the
exemption in condition 6 of the spec's decision table). -/
def isBareVar : Expr → Bool
  | .Var _ => true
  | _ => false


/-- Modelled from the spec: the Transformability Decision Procedure's
decision table (§4.4), checked in order; the first failing condition
determines the rejection reason.  Inputs: the current function and macro
tables, the caller's local environment, the resolved macro definition
(parameter list and body), and the invocation's argument expressions. -/
def decideTransformable (F : FunctionTable) (Mt : MacroTable)
    (Ecaller : Env) (params : List String) (mexpr : Expr)
    (args : List Expr) : TransformationVerdict :=
  if args.length ≠ params.length then
    .NotTransformable .ArityMismatch
  else if ¬ params.Nodup then
    .NotTransformable .MalformedMacro
  else if ExprNoMacroInvocationsB mexpr F Mt = false then
    .NotTransformable .NestedMacro
  else if params.isEmpty then
    if ExprNoVarsInEnvironmentB mexpr Ecaller = false then
      .NotTransformable .CapturesCallerScope
    else if isBareVar mexpr || !ExprHasSideEffects mexpr then
      .Transformable .ObjectLikeToNullaryFunction
    else
      .NotTransformable .SideEffectingBody
  else
    if args.all
        (fun a => !ExprHasSideEffects a && ExprNoMacroInvocationsB a F Mt)
    then
      if isBareVar mexpr || !ExprHasSideEffects mexpr then
        .Transformable .FunctionLikeToFunction
      else
        .NotTransformable .SideEffectingBody
    else
      .NotTransformable .UnsafeArgument


/-!
## The transformation relation

`Transformations.v` is not under `src/`.  The relation below is modelled
from the spec (§4.4–§4.5): a macro invocation site judged transformable is
rewritten to a call to a freshly-named generated function whose body is
`Skip` and whose return expression is the macro body unchanged, the new
definition being added to the function table; a site not judged
transformable is left unchanged.  Constructor premises follow the macro-site
cases of the mutual soundness proof in `Theorems.v` (the side-effect-free
single-argument function-like case, the side-effect-free object-like case,
and the untransformable case), including the proof's "generous premise"
that in every environment in which the macro body terminates the body
shares no variables with that environment. -/
inductive TransformExpr :
    MacroTable → FunctionTable → Expr → FunctionTable → Expr → Prop where
  | Transform_MacroNotTransformable : ∀ Mt F x es params mexpr,
      MapsTo x (params, mexpr) Mt →
      TransformExpr Mt F (.CallOrInvocation x es) F (.CallOrInvocation x es)
  | Transform_FunctionLikeMacro1Arg : ∀ Mt F x p y e fname newdef F',
      MapsTo x ([p], .Var y) Mt →
      ExprHasSideEffects e = false →
      (∀ S Ec G v S',
        EvalExpr S Ec G F (mremove x Mt) (.Var y) v S' →
        ExprNoVarsInEnvironmentB (.Var y) Ec = true) →
      ¬ MIn fname F →
      ¬ MIn fname Mt →
      newdef = ([p], Stmt.Skip, Expr.Var y) →
      F' = madd fname newdef F →
      TransformExpr Mt F (.CallOrInvocation x [e]) F'
        (.CallOrInvocation fname [e])
  | Transform_ObjectLikeMacro : ∀ Mt F x mexpr fname newdef F',
      MapsTo x ([], mexpr) Mt →
      ExprHasSideEffects mexpr = false →
      (∀ S Ec G v S',
        EvalExpr S Ec G F (mremove x Mt) mexpr v S' →
        ExprNoVarsInEnvironmentB mexpr Ec = true) →
      ¬ MIn fname F →
      ¬ MIn fname Mt →
      newdef = ([], Stmt.Skip, mexpr) →
      F' = madd fname newdef F →
      TransformExpr Mt F (.CallOrInvocation x []) F'
        (.CallOrInvocation fname [])


/-!
## Determinism of macro substitution

Lean rendering of `MSub_deterministic` and `MacroSubst_deterministic` from
`EvalRules.v`.
-/

/-- Induction motive for `MSub_deterministic` (the `MSub_mut` scheme). -/
def MSubDetMotive : MSubKind → Prop
  | .one p e e0 e0' => ∀ e0'', MSubJ (.one p e e0 e0'') → e0' = e0''
  | .lst p e es es' => ∀ es'', MSubJ (.lst p e es es'') → es' = es''


/-!
## Initial-store replacement

Lean rendering of `S_Equal_EvalExpr` / `S_Equal_EvalStmt` /
`S_Equal_EvalExprList` of `EvalRules.v`: evaluation is invariant under
replacing the initial store by an `Equal` one.
-/

/-- Induction motive for the `S_Equal` lemmas (the `EvalExpr_mut`
scheme). -/
def SEqMotive : EvKind → Prop
  | .Exp S E G F Mt e v S' =>
      ∀ S2, MEqual S S2 → Ev (.Exp S2 E G F Mt e v S')
  | .Lst Sprev Ec G F Mt ps es vs Snext Ef Sargs l ls =>
      ∀ S2, MEqual Sprev S2 → Ev (.Lst S2 Ec G F Mt ps es vs Snext Ef Sargs l ls)
  | .Stm S E G F Mt s S' =>
      ∀ S2, MEqual S S2 → Ev (.Stm S2 E G F Mt s S')


/-!
## Determinism of evaluation

Lean rendering of `EvalExpr_deterministic` of `EvalRules.v` (proved there
with the `EvalExpr_mut` mutual induction scheme).
-/

/-- Induction motive for `EvalExpr_deterministic`.  Because the callee
environment and the argument store of `EvalExprList` are built syntactically
by the constructors, they are determined up to literal equality. -/
def DetMotive : EvKind → Prop
  | .Exp S E G F Mt e v S' =>
      ∀ v2 S2', Ev (.Exp S E G F Mt e v2 S2') → v = v2 ∧ MEqual S' S2'
  | .Lst Sprev Ec G F Mt ps es vs Snext Ef Sargs l ls =>
      ∀ vs2 Snext2 Ef2 Sargs2 l2 ls2,
        Ev (.Lst Sprev Ec G F Mt ps es vs2 Snext2 Ef2 Sargs2 l2 ls2) →
        vs = vs2 ∧ MEqual Snext Snext2 ∧ Ef = Ef2 ∧ Sargs = Sargs2 ∧
          l = l2 ∧ ls = ls2
  | .Stm S E G F Mt s S' =>
      ∀ S2', Ev (.Stm S E G F Mt s S2') → MEqual S' S2'


/-!
## Function-table extension

Lean rendering of `EvalExpr_notin_F_add_EvalExpr` and
`EvalExpr_Disjoint_update_F_EvalExpr` of `EvalRules.v`: both follow from one
mutual induction showing that evaluation is preserved by any function table
that preserves the bindings of the old one.
-/


/-- Induction motive: replacing the function table by one that preserves all
its bindings preserves evaluation. -/
def FSubMotive : EvKind → Prop
  | .Exp S E G F Mt e v S' =>
      ∀ F2, (∀ y d, MapsTo y d F → MapsTo y d F2) →
        Ev (.Exp S E G F2 Mt e v S')
  | .Lst Sprev Ec G F Mt ps es vs Snext Ef Sargs l ls =>
      ∀ F2, (∀ y d, MapsTo y d F → MapsTo y d F2) →
        Ev (.Lst Sprev Ec G F2 Mt ps es vs Snext Ef Sargs l ls)
  | .Stm S E G F Mt s S' =>
      ∀ F2, (∀ y d, MapsTo y d F → MapsTo y d F2) →
        Ev (.Stm S E G F2 Mt s S')


/-- Induction motive: single-parameter substitution of a side-effect-free
expression into a side-effect-free expression stays side-effect free. -/
def MSubSEMotive : MSubKind → Prop
  | .one p e e0 e0' =>
      ExprHasSideEffects e0 = false → ExprHasSideEffects e = false →
      ExprHasSideEffects e0' = false
  | .lst _ _ _ _ => True


/-!
## Call-by-name / call-by-value equivalence

The core of `Theorems.v`'s
`not_ExprSideEffects_ExprNoVarsInEnvironment_call_by_name_call_by_value`
(and of the aborted general lemma
`no_side_effects_no_shared_vars_with_caller_evalargs_macrosubst_1`),
proved here for an arbitrary side-effect-free macro body by induction on the
substitution derivation.
-/

/-- Induction motive relating call-by-name and call-by-value evaluation of a
one-parameter macro body: `S` is the caller's store, `v0` the value of the
(side-effect-free) argument, `U` the callee-side store (caller store merged
with the argument binding at L-value `1`); the call-by-name side evaluates
the substituted body from a store equal to `S` under the caller environment,
the call-by-value side evaluates the body unchanged from a store equal to
`U` under the one-entry callee environment. -/
def CbnCbvMotive (S : Store) (Ec G : Env) (F : FunctionTable)
    (Mt : MacroTable) (v0 : Int) (U : Store) (F2 : FunctionTable)
    (M2 : MacroTable) : MSubKind → Prop
  | .one p e e0 e0' =>
      ExprHasSideEffects e0 = false →
      ExprNoVarsInEnvironmentB e0 Ec = true →
      ExprHasSideEffects e = false →
      (∃ Se0, EvalExpr S Ec G F Mt e v0 Se0) →
      (∀ k, MIn k S → mfind? U k = mfind? S k) →
      mfind? U 1 = some v0 →
      ∀ Sc, MEqual Sc S →
      ∀ v S₁, EvalExpr Sc Ec G F Mt e0' v S₁ →
      ∀ Uc, MEqual Uc U →
      ∀ v' S₂, EvalExpr Uc (madd p 1 []) G F2 M2 e0 v' S₂ →
      v = v'
  | .lst _ _ _ _ => True


/-- The body of the `A_THEN_B` macro of the repository's test fixture
(`#define A_THEN_B(a, b) ((a) && (b))`). -/
def A_THEN_B_body : Expr :=
  .ParenExpr (.BinExpr .And (.ParenExpr (.Var "a")) (.ParenExpr (.Var "b")))

section Maps2


variable {α β : Type} [DecidableEq α]


theorem MEqual.refl (m : List (α × β)) : MEqual m m := fun _ => rfl


theorem MEqual.symm {m1 m2 : List (α × β)} (h : MEqual m1 m2) : MEqual m2 m1 :=
  fun k => (h k).symm


theorem MEqual.trans {m1 m2 m3 : List (α × β)}
    (h1 : MEqual m1 m2) (h2 : MEqual m2 m3) : MEqual m1 m3 :=
  fun k => (h1 k).trans (h2 k)


theorem MapsTo_of_MEqual {k : α} {v : β} {m1 m2 : List (α × β)}
    (h : MEqual m1 m2) (hm : MapsTo k v m1) : MapsTo k v m2 :=
  (h k).symm.trans hm


theorem MIn_of_MEqual {k : α} {m1 m2 : List (α × β)}
    (h : MEqual m1 m2) (hm : MIn k m1) : MIn k m2 := by
  unfold MIn at *; rw [← h k]; exact hm


theorem MapsTo_MIn {k : α} {v : β} {m : List (α × β)} (h : MapsTo k v m) :
    MIn k m := by
  unfold MIn; rw [h]; rfl


theorem MapsTo_fun {k : α} {v1 v2 : β} {m : List (α × β)}
    (h1 : MapsTo k v1 m) (h2 : MapsTo k v2 m) : v1 = v2 := by
  unfold MapsTo at *; rw [h1] at h2; exact Option.some.inj h2


theorem mfind?_madd_self (k : α) (v : β) (m : List (α × β)) :
    mfind? (madd k v m) k = some v := by
  simp [madd, mfind?]


theorem mfind?_madd_ne {k k' : α} (h : k ≠ k') (v : β) (m : List (α × β)) :
    mfind? (madd k v m) k' = mfind? m k' := by
  simp [madd, mfind?, h]


theorem mfind?_mremove (k k' : α) (m : List (α × β)) :
    mfind? (mremove k m) k' = if k' = k then none else mfind? m k' := by
  induction m with
  | nil => simp [mremove, mfind?]
  | cons p t ih =>
    obtain ⟨a, b⟩ := p
    by_cases hak : a = k
    · subst hak
      have hstep : mremove a ((a, b) :: t) = mremove a t := by
        simp [mremove, List.filter]
      rw [hstep, ih]
      by_cases hk' : k' = a
      · simp [hk']
      · have hne : ¬ a = k' := fun hh => hk' hh.symm
        simp [mfind?, hk', hne]
    · have hstep : mremove k ((a, b) :: t) = (a, b) :: mremove k t := by
        simp [mremove, List.filter, hak]
      rw [hstep]
      by_cases hk'k : k' = k
      · subst hk'k
        have hak' : ¬ a = k' := hak
        simp [mfind?, hak', ih]
      · by_cases hak' : a = k'
        · simp [mfind?, hak', hk'k]
        · simp [mfind?, hak', ih, hk'k]


theorem not_MIn_mremove_self (k : α) (m : List (α × β)) :
    ¬ MIn k (mremove k m) := by
  unfold MIn
  rw [mfind?_mremove]
  simp


theorem mfind?_append (m2 m1 : List (α × β)) (k : α) :
    mfind? (m2 ++ m1) k =
      match mfind? m2 k with
      | some v => some v
      | none => mfind? m1 k := by
  induction m2 with
  | nil => simp [mfind?]
  | cons p t ih =>
    obtain ⟨a, b⟩ := p
    by_cases hak : a = k
    · simp [mfind?, hak]
    · simpa [mfind?, hak] using ih


theorem mfind?_mupdate_of_not_MIn {k : α} {m2 : List (α × β)}
    (h : ¬ MIn k m2) (m1 : List (α × β)) :
    mfind? (mupdate m1 m2) k = mfind? m1 k := by
  unfold MIn at h
  unfold mupdate
  induction m2 with
  | nil => rfl
  | cons p t ih =>
    obtain ⟨a, b⟩ := p
    by_cases hak : a = k
    · exact absurd (by simp [mfind?, hak]) h
    · have h' : ¬ (mfind? t k).isSome = true := by
        simpa [mfind?, hak] using h
      simpa [mfind?, hak] using ih h'


theorem mfind?_mupdate_of_MIn {k : α} {m2 : List (α × β)}
    (h : MIn k m2) (m1 : List (α × β)) :
    mfind? (mupdate m1 m2) k = mfind? m2 k := by
  unfold MIn at h
  unfold mupdate
  induction m2 with
  | nil => simp [mfind?] at h
  | cons p t ih =>
    obtain ⟨a, b⟩ := p
    by_cases hak : a = k
    · simp [mfind?, hak]
    · have h' : (mfind? t k).isSome = true := by
        simpa [mfind?, hak] using h
      simpa [mfind?, hak] using ih h'


theorem mfind?_mrestrict (m1 m2 : List (α × β)) (k : α) :
    mfind? (mrestrict m1 m2) k =
      if (mfind? m2 k).isSome then mfind? m1 k else none := by
  induction m1 with
  | nil => simp [mrestrict, mfind?]
  | cons p t ih =>
    obtain ⟨a, b⟩ := p
    by_cases hak : a = k
    · subst hak
      cases hf : (mfind? m2 a).isSome with
      | true => simp [mrestrict, List.filter, hf, mfind?]
      | false =>
        simp only [mrestrict, List.filter, hf] at ih ⊢
        simpa [mfind?, hf] using ih
    · cases hf : (mfind? m2 a).isSome with
      | true =>
        simp only [mrestrict, List.filter, hf] at ih ⊢
        simpa [mfind?, hak] using ih
      | false =>
        simp only [mrestrict, List.filter, hf] at ih ⊢
        simpa [mfind?, hak] using ih


/-- Congruence of `restrict` in its first argument, up to `Equal`. -/
theorem mrestrict_congr_left {m1 m1' : List (α × β)} (h : MEqual m1 m1')
    (m2 : List (α × β)) : MEqual (mrestrict m1 m2) (mrestrict m1' m2) := by
  intro k
  rw [mfind?_mrestrict, mfind?_mrestrict, h k]


/-- Restricting a store equal to `S` back to `S`'s keys yields `S`
(the `NatMap_restrict_refl` shape used by `Theorems.v`). -/
theorem mrestrict_self_of_MEqual {X S : List (α × β)} (h : MEqual X S) :
    MEqual (mrestrict X S) S := by
  intro k
  rw [mfind?_mrestrict, h k]
  cases hf : mfind? S k with
  | none => simp [hf]
  | some v => simp [hf]


/-- The `NatMap_disjoint_restrict_Equal` lemma of the source's `MapLemmas`:
merging a disjoint argument store into the caller store and then restricting
to the caller store's keys recovers the caller store. -/
theorem mdisjoint_restrict_update {S' Sargs S : List (α × β)}
    (hd : MDisjoint S' Sargs) (he : MEqual S' S) :
    MEqual (mrestrict (mupdate S' Sargs) S) S := by
  intro k
  rw [mfind?_mrestrict]
  cases hf : (mfind? S k).isSome with
  | false =>
    have hnone : mfind? S k = none := by
      cases hS : mfind? S k with
      | none => rfl
      | some v => rw [hS] at hf; simp at hf
    simp [hf, hnone]
  | true =>
    have hIn : MIn k S' := by
      unfold MIn; rw [he k]; exact hf
    have hNotIn : ¬ MIn k Sargs := fun hIn2 => hd k ⟨hIn, hIn2⟩
    simp only [hf, if_true]
    rw [mfind?_mupdate_of_not_MIn hNotIn, he k]


end Maps2


/-!
## Map congruence helpers
-/

theorem mupdate_congr_left {α β : Type} [DecidableEq α]
    {m1 m1' : List (α × β)} (h : MEqual m1 m1') (m2 : List (α × β)) :
    MEqual (mupdate m1 m2) (mupdate m1' m2) := by
  intro k
  unfold mupdate
  rw [mfind?_append, mfind?_append]
  cases hf : mfind? m2 k with
  | some v => rfl
  | none => exact h k


theorem mrestrict_congr_right {α β : Type} [DecidableEq α]
    {m2 m2' : List (α × β)} (h : MEqual m2 m2') (m1 : List (α × β)) :
    MEqual (mrestrict m1 m2) (mrestrict m1 m2') := by
  intro k
  rw [mfind?_mrestrict, mfind?_mrestrict, h k]


/-- `MSub_deterministic` / its `MSubList` companion: given the same inputs,
single-argument macro substitution always returns the same result. -/
theorem MSubJ_deterministic : ∀ k, MSubJ k → MSubDetMotive k := by
  intro k h
  induction h with
  | MS_Num p e z =>
    intro e2 h2; cases h2; rfl
  | MS_Var_Replace p e x hpx =>
    intro e2 h2
    cases h2 with
    | MS_Var_Replace => rfl
    | MS_Var_No_Replace _ _ _ hne => exact absurd hpx hne
  | MS_Var_No_Replace p e x hne =>
    intro e2 h2
    cases h2 with
    | MS_Var_Replace _ _ _ hpx => exact absurd hpx hne
    | MS_Var_No_Replace => rfl
  | MS_PareExpr p e e0 e0' h ih =>
    intro e2 h2
    cases h2 with
    | MS_PareExpr _ _ _ e0'' h'' => rw [ih _ h'']
  | MS_UnExpr p e uo e0 e0' h ih =>
    intro e2 h2
    cases h2 with
    | MS_UnExpr _ _ _ _ e0'' h'' => rw [ih _ h'']
  | MS_BinExpr p e bo e1 e2 e1' e2' h1 h2 ih1 ih2 =>
    intro e0'' hh
    cases hh with
    | MS_BinExpr _ _ _ _ _ e1'' e2'' h1'' h2'' =>
      rw [ih1 _ h1'', ih2 _ h2'']
  | MS_Assign_Replace p e x y e0 e0' hpx hey h ih =>
    intro e2 h2
    cases h2 with
    | MS_Assign_Replace _ _ _ y' _ e0'' hpx' hey' h'' =>
      rw [hey] at hey'
      cases hey'
      rw [ih _ h'']
    | MS_Assign_No_Replace _ _ _ _ _ hne _ => exact absurd hpx hne
  | MS_Assign_No_Replace p e x e0 e0' hne h ih =>
    intro e2 h2
    cases h2 with
    | MS_Assign_Replace _ _ _ _ _ _ hpx _ _ => exact absurd hpx hne
    | MS_Assign_No_Replace _ _ _ _ e0'' _ h'' => rw [ih _ h'']
  | MS_Call_Or_Invocation p e x es es' h ih =>
    intro e2 h2
    cases h2 with
    | MS_Call_Or_Invocation _ _ _ _ es'' h'' => rw [ih _ h'']
  | MSL_nil p e =>
    intro es2 h2; cases h2; rfl
  | MSL_cons p e e0 e0' es0 es0' h hs ih ihs =>
    intro es2 h2
    cases h2 with
    | MSL_cons _ _ _ e0'' _ es0'' h'' hs'' =>
      rw [ih _ h'', ihs _ hs'']


/-- `MacroSubst_deterministic` of `EvalRules.v`: given the same inputs,
multiple-argument macro substitution always returns the same result. -/
theorem MacroSubst_deterministic :
    ∀ params es mexpr ef, MacroSubst params es mexpr ef →
    ∀ ef0, MacroSubst params es mexpr ef0 → ef = ef0 := by
  intro params es mexpr ef h
  induction h with
  | MacroSubst_nil mexpr =>
    intro ef0 h0; cases h0; rfl
  | MacroSubst_cons p e ps es mexpr ef ef' hs hrest ih =>
    intro ef0 h0
    cases h0 with
    | MacroSubst_cons _ _ _ _ _ ef1 _ hs1 hrest1 =>
      have hef : ef = ef1 := MSubJ_deterministic _ hs _ hs1
      subst hef
      exact ih _ hrest1


/-- `S_Equal_EvalExpr` and its companions, by mutual induction on the
evaluation derivation. -/
theorem Ev_S_Equal : ∀ k, Ev k → SEqMotive k := by
  intro k h
  induction h with
  | E_Num S E G F Mt z S' hEq =>
    intro S2 h2
    exact .E_Num _ _ _ _ _ _ _ (h2.symm.trans hEq)
  | E_LocalVar S E G F Mt x l v S' hEq hxl hlv =>
    intro S2 h2
    exact .E_LocalVar _ _ _ _ _ _ l _ _ (h2.symm.trans hEq) hxl
      (MapsTo_of_MEqual h2 hlv)
  | E_GlobalVar S E G F Mt x l v S' hEq hnx hxl hlv =>
    intro S2 h2
    exact .E_GlobalVar _ _ _ _ _ _ l _ _ (h2.symm.trans hEq) hnx hxl
      (MapsTo_of_MEqual h2 hlv)
  | E_ParenExpr S E G F Mt e0 v S' h ih =>
    intro S2 h2
    exact .E_ParenExpr _ _ _ _ _ _ _ _ (ih S2 h2)
  | E_UnExpr S E G F Mt S' uo e0 v h ih =>
    intro S2 h2
    exact .E_UnExpr _ _ _ _ _ _ _ _ _ (ih S2 h2)
  | E_BinExpr S E G F Mt bo e1 e2 v1 v2 S' S'' h1 h2 ih1 ih2 =>
    intro S2 hS2
    exact .E_BinExpr _ _ _ _ _ _ _ _ _ _ _ _ (ih1 S2 hS2) h2
  | E_Assign_Local S E G F Mt l x e0 v S' S'' hxl h hS'' ih =>
    intro S2 h2
    exact .E_Assign_Local _ _ _ _ _ _ _ _ _ _ _ hxl (ih S2 h2)
      (hS''.trans (mupdate_congr_left h2 _))
  | E_Assign_Global S E G F Mt l x e0 v S' S'' hnx hxl h hS'' ih =>
    intro S2 h2
    exact .E_Assign_Global _ _ _ _ _ _ _ _ _ _ _ hnx hxl (ih S2 h2)
      (hS''.trans (mupdate_congr_left h2 _))
  | E_FunctionCall S E G F Mt x es params fstmt fexpr l ls Ef Sargs S' S''
      S''' S'''' S''''' v vs hnM hxF hnd hargs hEf hSargs hdisj hS'' hstmt
      hfexpr hSfin ihargs ihstmt ihfexpr =>
    intro S2 h2
    exact .E_FunctionCall _ _ _ _ _ _ _ _ _ _ _ _ _ _ _ _ _ _ _ _ _
      hnM hxF hnd (ihargs S2 h2) hEf hSargs hdisj hS'' hstmt hfexpr
      (hSfin.trans (mrestrict_congr_right h2 _))
  | E_MacroInvocation S E G F Mt x params es mexpr M' ef S' v hxM hM' hnd
      hsub h ih =>
    intro S2 h2
    exact .E_MacroInvocation _ _ _ _ _ _ _ _ _ M' _ _ _ hxM hM' hnd hsub
      (ih S2 h2)
  | E_ExprList_nil Sprev Ec G F Mt Snext hEq =>
    intro S2 h2
    exact .E_ExprList_nil _ _ _ _ _ _ (h2.symm.trans hEq)
  | E_ExprList_cons Sprev Ec G F Mt p e v Snext ps es vs Sfinal Ef' Sargs'
      l ls h hrest hnl hnd hnp ih ihrest =>
    intro S2 h2
    exact .E_ExprList_cons _ _ _ _ _ _ _ _ _ _ _ _ _ _ _ _ _
      (ih S2 h2) hrest hnl hnd hnp
  | E_Skip S E G F Mt S' hEq =>
    intro S2 h2
    exact .E_Skip _ _ _ _ _ _ (h2.symm.trans hEq)
  | E_Expr S E G F Mt e0 v S' h ih =>
    intro S2 h2
    exact .E_Expr _ _ _ _ _ _ v _ (ih S2 h2)
  | E_IfElseFalse S E G F Mt cond v S' s1 s2 S'' hcond hv hs ihcond ihs =>
    intro S2 h2
    exact .E_IfElseFalse _ _ _ _ _ _ v _ _ _ _ (ihcond S2 h2) hv hs
  | E_IfElseTrue S E G F Mt cond v S' s1 s2 S'' hcond hv hs ihcond ihs =>
    intro S2 h2
    exact .E_IfElseTrue _ _ _ _ _ _ v _ _ _ _ (ihcond S2 h2) hv hs
  | E_WhileFalse S E G F Mt cond v S' s0 hcond hv ihcond =>
    intro S2 h2
    exact .E_WhileFalse _ _ _ _ _ _ v _ _ (ihcond S2 h2) hv
  | E_WhileTrue S E G F Mt cond v S' s0 S'' S''' hcond hv hbody hloop
      ihcond ihbody ihloop =>
    intro S2 h2
    exact .E_WhileTrue _ _ _ _ _ _ v _ _ _ _ (ihcond S2 h2) hv hbody hloop
  | E_CompoundStmt_nil S E G F Mt S' hEq =>
    intro S2 h2
    exact .E_CompoundStmt_nil _ _ _ _ _ _ (h2.symm.trans hEq)
  | E_CompoundStmt_cons S E G F Mt s ss S' S'' hs hss ihs ihss =>
    intro S2 h2
    exact .E_CompoundStmt_cons _ _ _ _ _ _ _ _ _ (ihs S2 h2) hss


/-- Convenience restatement of `S_Equal_EvalExpr`. -/
theorem S_Equal_EvalExpr {S1 : Store} {E G : Env} {F : FunctionTable}
    {Mt : MacroTable} {e : Expr} {v : Int} {S' : Store}
    (h : EvalExpr S1 E G F Mt e v S') {S2 : Store} (heq : MEqual S1 S2) :
    EvalExpr S2 E G F Mt e v S' :=
  Ev_S_Equal _ h S2 heq


/-- Convenience restatement of `S_Equal_EvalStmt`. -/
theorem S_Equal_EvalStmt {S1 : Store} {E G : Env} {F : FunctionTable}
    {Mt : MacroTable} {s : Stmt} {S' : Store}
    (h : EvalStmt S1 E G F Mt s S') {S2 : Store} (heq : MEqual S1 S2) :
    EvalStmt S2 E G F Mt s S' :=
  Ev_S_Equal _ h S2 heq


/-- Convenience restatement of `S_Equal_EvalExprList`. -/
theorem S_Equal_EvalExprList {S1 : Store} {Ec G : Env} {F : FunctionTable}
    {Mt : MacroTable} {ps : List String} {es : List Expr} {vs : List Int}
    {Snext : Store} {Ef : Env} {Sargs : Store} {l : Nat} {ls : List Nat}
    (h : EvalExprList S1 Ec G F Mt ps es vs Snext Ef Sargs l ls)
    {S2 : Store} (heq : MEqual S1 S2) :
    EvalExprList S2 Ec G F Mt ps es vs Snext Ef Sargs l ls :=
  Ev_S_Equal _ h S2 heq


/-- `EvalExpr_deterministic` and its statement/argument-list companions:
given the same context and expression, evaluation terminates with the same
value and the same final store every time. -/
theorem Ev_deterministic : ∀ k, Ev k → DetMotive k := by
  intro k h
  induction h with
  | E_Num S E G F Mt z S' hEq =>
    intro v2 S2' h2
    cases h2 with
    | E_Num _ _ _ _ _ _ _ hEq2 => exact ⟨rfl, hEq.symm.trans hEq2⟩
  | E_LocalVar S E G F Mt x l v S' hEq hxl hlv =>
    intro v2 S2' h2
    cases h2 with
    | E_LocalVar _ _ _ _ _ _ l0 _ _ hEq2 hxl0 hlv0 =>
      have hl : l = l0 := MapsTo_fun hxl hxl0
      subst hl
      exact ⟨MapsTo_fun hlv hlv0, hEq.symm.trans hEq2⟩
    | E_GlobalVar _ _ _ _ _ _ l0 _ _ hEq2 hnx0 hxl0 hlv0 =>
      exact absurd (MapsTo_MIn hxl) hnx0
  | E_GlobalVar S E G F Mt x l v S' hEq hnx hxl hlv =>
    intro v2 S2' h2
    cases h2 with
    | E_LocalVar _ _ _ _ _ _ l0 _ _ hEq2 hxl0 hlv0 =>
      exact absurd (MapsTo_MIn hxl0) hnx
    | E_GlobalVar _ _ _ _ _ _ l0 _ _ hEq2 hnx0 hxl0 hlv0 =>
      have hl : l = l0 := MapsTo_fun hxl hxl0
      subst hl
      exact ⟨MapsTo_fun hlv hlv0, hEq.symm.trans hEq2⟩
  | E_ParenExpr S E G F Mt e0 v S' h ih =>
    intro v2 S2' h2
    cases h2 with
    | E_ParenExpr _ _ _ _ _ _ _ _ hsub => exact ih _ _ hsub
  | E_UnExpr S E G F Mt S' uo e0 v h ih =>
    intro v2 S2' h2
    cases h2 with
    | E_UnExpr _ _ _ _ _ _ _ _ v0 hsub =>
      obtain ⟨hv, hS⟩ := ih _ _ hsub
      subst hv
      exact ⟨rfl, hS⟩
  | E_BinExpr S E G F Mt bo e1 e2 v1 v2 S' S'' h1 h2 ih1 ih2 =>
    intro v0 S2' hh
    cases hh with
    | E_BinExpr _ _ _ _ _ _ _ _ v3 v4 S'0 _ h3 h4 =>
      obtain ⟨hv1, hS'⟩ := ih1 _ _ h3
      subst hv1
      obtain ⟨hv2, hS''⟩ := ih2 _ _ (S_Equal_EvalExpr h4 hS'.symm)
      subst hv2
      exact ⟨rfl, hS''⟩
  | E_Assign_Local S E G F Mt l x e0 v S' S'' hxl h hS'' ih =>
    intro v2 S2' h2
    cases h2 with
    | E_Assign_Local _ _ _ _ _ l0 _ _ _ S'0 _ hxl0 hsub0 hS2' =>
      have hl : l = l0 := MapsTo_fun hxl hxl0
      subst hl
      obtain ⟨hv, _⟩ := ih _ _ hsub0
      subst hv
      exact ⟨rfl, hS''.trans hS2'.symm⟩
    | E_Assign_Global _ _ _ _ _ l0 _ _ _ S'0 _ hnx0 hxl0 hsub0 hS2' =>
      exact absurd (MapsTo_MIn hxl) hnx0
  | E_Assign_Global S E G F Mt l x e0 v S' S'' hnx hxl h hS'' ih =>
    intro v2 S2' h2
    cases h2 with
    | E_Assign_Local _ _ _ _ _ l0 _ _ _ S'0 _ hxl0 hsub0 hS2' =>
      exact absurd (MapsTo_MIn hxl0) hnx
    | E_Assign_Global _ _ _ _ _ l0 _ _ _ S'0 _ hnx0 hxl0 hsub0 hS2' =>
      have hl : l = l0 := MapsTo_fun hxl hxl0
      subst hl
      obtain ⟨hv, _⟩ := ih _ _ hsub0
      subst hv
      exact ⟨rfl, hS''.trans hS2'.symm⟩
  | E_FunctionCall S E G F Mt x es params fstmt fexpr l ls Ef Sargs S' S''
      S''' S'''' S''''' v vs hnM hxF hnd hargs hEf hSargs hdisj hS'' hstmt
      hfexpr hS''''' ihargs ihstmt ihfexpr =>
    intro v2 S2' h2
    cases h2 with
    | E_FunctionCall _ _ _ _ _ _ _ params0 fstmt0 fexpr0 l0 ls0 Ef0 Sargs0
        S'0 S''0 S'''0 S''''0 _ _ vs0 hnM0 hxF0 hnd0 hargs0 hEf0 hSargs0
        hdisj0 hS''0 hstmt0 hfexpr0 hS'''''0 =>
      have hdef := MapsTo_fun hxF hxF0
      injection hdef with hp hrest
      injection hrest with hfs hfe
      subst hp
      subst hfs
      subst hfe
      obtain ⟨hvs, hS', hEfeq, hSargseq, hleq, hlseq⟩ :=
        ihargs _ _ _ _ _ _ hargs0
      subst hvs
      subst hEfeq
      subst hSargseq
      subst hleq
      subst hlseq
      have hS''eq : MEqual S'' S''0 :=
        hS''.trans ((mupdate_congr_left hS' _).trans hS''0.symm)
      have hS''' := ihstmt _ (S_Equal_EvalStmt hstmt0 hS''eq.symm)
      obtain ⟨hveq, hS''''⟩ := ihfexpr _ _ (S_Equal_EvalExpr hfexpr0 hS'''.symm)
      subst hveq
      exact ⟨rfl,
        hS'''''.trans ((mrestrict_congr_left hS'''' _).trans hS'''''0.symm)⟩
    | E_MacroInvocation _ _ _ _ _ _ params0 _ mexpr0 M'0 ef0 _ _ hxM0 hM'0
        hnd0 hsub0 hbody0 =>
      exact absurd (MapsTo_MIn hxM0) hnM
  | E_MacroInvocation S E G F Mt x params es mexpr M' ef S' v hxM hM' hnd
      hsub hbody ih =>
    intro v2 S2' h2
    cases h2 with
    | E_FunctionCall _ _ _ _ _ _ _ params0 fstmt0 fexpr0 l0 ls0 Ef0 Sargs0
        S'0 S''0 S'''0 S''''0 _ _ vs0 hnM0 hxF0 hnd0 hargs0 hEf0 hSargs0
        hdisj0 hS''0 hstmt0 hfexpr0 hS'''''0 =>
      exact absurd (MapsTo_MIn hxM) hnM0
    | E_MacroInvocation _ _ _ _ _ _ params0 _ mexpr0 M'0 ef0 _ _ hxM0 hM'0
        hnd0 hsub0 hbody0 =>
      have hdef := MapsTo_fun hxM hxM0
      injection hdef with hp hme
      subst hp
      subst hme
      have hef : ef = ef0 := MacroSubst_deterministic _ _ _ _ hsub _ hsub0
      subst hef
      subst hM'
      subst hM'0
      exact ih _ _ hbody0
  | E_ExprList_nil Sprev Ec G F Mt Snext hEq =>
    intro vs2 Snext2 Ef2 Sargs2 l2 ls2 h2
    cases h2 with
    | E_ExprList_nil _ _ _ _ _ _ hEq2 =>
      exact ⟨rfl, hEq.symm.trans hEq2, rfl, rfl, rfl, rfl⟩
  | E_ExprList_cons Sprev Ec G F Mt p e v Snext ps es vs Sfinal Ef' Sargs'
      l ls hhead hrest hnl hnd hnp ihhead ihrest =>
    intro vs2 Snext2 Ef2 Sargs2 l2 ls2 h2
    cases h2 with
    | E_ExprList_cons _ _ _ _ _ _ _ v0 Snext0 _ _ vs0 Sfinal0 Ef'0 Sargs'0
        l0 ls0 hhead0 hrest0 hnl0 hnd0 hnp0 =>
      obtain ⟨hv, hSnext⟩ := ihhead _ _ hhead0
      subst hv
      obtain ⟨hvs, hSfinal, hEf', hSargs', hl, hls⟩ :=
        ihrest _ _ _ _ _ _ (S_Equal_EvalExprList hrest0 hSnext.symm)
      subst hvs
      subst hEf'
      subst hSargs'
      subst hl
      subst hls
      exact ⟨rfl, hSfinal, rfl, rfl, rfl, rfl⟩
  | E_Skip S E G F Mt S' hEq =>
    intro S2' h2
    cases h2 with
    | E_Skip _ _ _ _ _ _ hEq2 => exact hEq.symm.trans hEq2
  | E_Expr S E G F Mt e0 v S' h ih =>
    intro S2' h2
    cases h2 with
    | E_Expr _ _ _ _ _ _ v0 _ hsub => exact (ih _ _ hsub).2
  | E_IfElseFalse S E G F Mt cond v S' s1 s2 S'' hcond hv hs ihcond ihs =>
    intro S2' h2
    cases h2 with
    | E_IfElseFalse _ _ _ _ _ _ v0 S'0 _ _ _ hcond0 hv0 hs0 =>
      obtain ⟨hveq, hS'⟩ := ihcond _ _ hcond0
      exact ihs _ (S_Equal_EvalStmt hs0 hS'.symm)
    | E_IfElseTrue _ _ _ _ _ _ v0 S'0 _ _ _ hcond0 hv0 hs0 =>
      obtain ⟨hveq, hS'⟩ := ihcond _ _ hcond0
      subst hveq
      exact absurd hv hv0
  | E_IfElseTrue S E G F Mt cond v S' s1 s2 S'' hcond hv hs ihcond ihs =>
    intro S2' h2
    cases h2 with
    | E_IfElseFalse _ _ _ _ _ _ v0 S'0 _ _ _ hcond0 hv0 hs0 =>
      obtain ⟨hveq, hS'⟩ := ihcond _ _ hcond0
      subst hveq
      exact absurd hv0 hv
    | E_IfElseTrue _ _ _ _ _ _ v0 S'0 _ _ _ hcond0 hv0 hs0 =>
      obtain ⟨hveq, hS'⟩ := ihcond _ _ hcond0
      exact ihs _ (S_Equal_EvalStmt hs0 hS'.symm)
  | E_WhileFalse S E G F Mt cond v S' s0 hcond hv ihcond =>
    intro S2' h2
    cases h2 with
    | E_WhileFalse _ _ _ _ _ _ v0 _ _ hcond0 hv0 =>
      exact (ihcond _ _ hcond0).2
    | E_WhileTrue _ _ _ _ _ _ v0 S'0 _ S''0 _ hcond0 hv0 hbody0 hloop0 =>
      obtain ⟨hveq, _⟩ := ihcond _ _ hcond0
      subst hveq
      subst hv
      exact absurd rfl hv0
  | E_WhileTrue S E G F Mt cond v S' s0 S'' S''' hcond hv hbody hloop
      ihcond ihbody ihloop =>
    intro S2' h2
    cases h2 with
    | E_WhileFalse _ _ _ _ _ _ v0 _ _ hcond0 hv0 =>
      obtain ⟨hveq, _⟩ := ihcond _ _ hcond0
      subst hveq
      subst hv0
      exact absurd rfl hv
    | E_WhileTrue _ _ _ _ _ _ v0 S'0 _ S''0 _ hcond0 hv0 hbody0 hloop0 =>
      obtain ⟨hveq, hS'⟩ := ihcond _ _ hcond0
      have hS'' := ihbody _ (S_Equal_EvalStmt hbody0 hS'.symm)
      exact ihloop _ (S_Equal_EvalStmt hloop0 hS''.symm)
  | E_CompoundStmt_nil S E G F Mt S' hEq =>
    intro S2' h2
    cases h2 with
    | E_CompoundStmt_nil _ _ _ _ _ _ hEq2 => exact hEq.symm.trans hEq2
  | E_CompoundStmt_cons S E G F Mt s ss S' S'' hs hss ihs ihss =>
    intro S2' h2
    cases h2 with
    | E_CompoundStmt_cons _ _ _ _ _ _ _ S'0 _ hs0 hss0 =>
      have hS' := ihs _ hs0
      exact ihss _ (S_Equal_EvalStmt hss0 hS'.symm)


/-- Convenience restatement of `EvalExpr_deterministic`. -/
theorem EvalExpr_deterministic {S : Store} {E G : Env} {F : FunctionTable}
    {Mt : MacroTable} {e : Expr} {v1 : Int} {S'1 : Store}
    (h1 : EvalExpr S E G F Mt e v1 S'1) {v2 : Int} {S'2 : Store}
    (h2 : EvalExpr S E G F Mt e v2 S'2) : v1 = v2 ∧ MEqual S'1 S'2 :=
  Ev_deterministic _ h1 v2 S'2 h2


/-- Evaluation is preserved by replacing the function table with any table
that preserves its bindings (the common content of the source's
`..._notin_F_add_...` and `..._Disjoint_update_F_...` lemma families). -/
theorem Ev_F_mono : ∀ k, Ev k → FSubMotive k := by
  intro k h
  induction h with
  | E_Num S E G F Mt z S' hEq =>
    intro F2 hF
    exact .E_Num _ _ _ _ _ _ _ hEq
  | E_LocalVar S E G F Mt x l v S' hEq hxl hlv =>
    intro F2 hF
    exact .E_LocalVar _ _ _ _ _ _ l _ _ hEq hxl hlv
  | E_GlobalVar S E G F Mt x l v S' hEq hnx hxl hlv =>
    intro F2 hF
    exact .E_GlobalVar _ _ _ _ _ _ l _ _ hEq hnx hxl hlv
  | E_ParenExpr S E G F Mt e0 v S' h ih =>
    intro F2 hF
    exact .E_ParenExpr _ _ _ _ _ _ _ _ (ih F2 hF)
  | E_UnExpr S E G F Mt S' uo e0 v h ih =>
    intro F2 hF
    exact .E_UnExpr _ _ _ _ _ _ _ _ _ (ih F2 hF)
  | E_BinExpr S E G F Mt bo e1 e2 v1 v2 S' S'' h1 h2 ih1 ih2 =>
    intro F2 hF
    exact .E_BinExpr _ _ _ _ _ _ _ _ _ _ _ _ (ih1 F2 hF) (ih2 F2 hF)
  | E_Assign_Local S E G F Mt l x e0 v S' S'' hxl h hS'' ih =>
    intro F2 hF
    exact .E_Assign_Local _ _ _ _ _ _ _ _ _ _ _ hxl (ih F2 hF) hS''
  | E_Assign_Global S E G F Mt l x e0 v S' S'' hnx hxl h hS'' ih =>
    intro F2 hF
    exact .E_Assign_Global _ _ _ _ _ _ _ _ _ _ _ hnx hxl (ih F2 hF) hS''
  | E_FunctionCall S E G F Mt x es params fstmt fexpr l ls Ef Sargs S' S''
      S''' S'''' S''''' v vs hnM hxF hnd hargs hEf hSargs hdisj hS'' hstmt
      hfexpr hS''''' ihargs ihstmt ihfexpr =>
    intro F2 hF
    exact .E_FunctionCall _ _ _ _ _ _ _ _ _ _ _ _ _ _ _ _ _ _ _ _ _
      hnM (hF _ _ hxF) hnd (ihargs F2 hF) hEf hSargs hdisj hS''
      (ihstmt F2 hF) (ihfexpr F2 hF) hS'''''
  | E_MacroInvocation S E G F Mt x params es mexpr M' ef S' v hxM hM' hnd
      hsub hbody ih =>
    intro F2 hF
    exact .E_MacroInvocation _ _ _ _ _ _ _ _ _ M' _ _ _ hxM hM' hnd hsub
      (ih F2 hF)
  | E_ExprList_nil Sprev Ec G F Mt Snext hEq =>
    intro F2 hF
    exact .E_ExprList_nil _ _ _ _ _ _ hEq
  | E_ExprList_cons Sprev Ec G F Mt p e v Snext ps es vs Sfinal Ef' Sargs'
      l ls hhead hrest hnl hnd hnp ihhead ihrest =>
    intro F2 hF
    exact .E_ExprList_cons _ _ _ _ _ _ _ _ _ _ _ _ _ _ _ _ _
      (ihhead F2 hF) (ihrest F2 hF) hnl hnd hnp
  | E_Skip S E G F Mt S' hEq =>
    intro F2 hF
    exact .E_Skip _ _ _ _ _ _ hEq
  | E_Expr S E G F Mt e0 v S' h ih =>
    intro F2 hF
    exact .E_Expr _ _ _ _ _ _ v _ (ih F2 hF)
  | E_IfElseFalse S E G F Mt cond v S' s1 s2 S'' hcond hv hs ihcond ihs =>
    intro F2 hF
    exact .E_IfElseFalse _ _ _ _ _ _ v _ _ _ _ (ihcond F2 hF) hv (ihs F2 hF)
  | E_IfElseTrue S E G F Mt cond v S' s1 s2 S'' hcond hv hs ihcond ihs =>
    intro F2 hF
    exact .E_IfElseTrue _ _ _ _ _ _ v _ _ _ _ (ihcond F2 hF) hv (ihs F2 hF)
  | E_WhileFalse S E G F Mt cond v S' s0 hcond hv ihcond =>
    intro F2 hF
    exact .E_WhileFalse _ _ _ _ _ _ v _ _ (ihcond F2 hF) hv
  | E_WhileTrue S E G F Mt cond v S' s0 S'' S''' hcond hv hbody hloop
      ihcond ihbody ihloop =>
    intro F2 hF
    exact .E_WhileTrue _ _ _ _ _ _ v _ _ _ _ (ihcond F2 hF) hv
      (ihbody F2 hF) (ihloop F2 hF)
  | E_CompoundStmt_nil S E G F Mt S' hEq =>
    intro F2 hF
    exact .E_CompoundStmt_nil _ _ _ _ _ _ hEq
  | E_CompoundStmt_cons S E G F Mt s ss S' S'' hs hss ihs ihss =>
    intro F2 hF
    exact .E_CompoundStmt_cons _ _ _ _ _ _ _ _ _ (ihs F2 hF) (ihss F2 hF)


/-- `EvalExpr_notin_F_add_EvalExpr` of `EvalRules.v`: adding a fresh
function name to the function table preserves evaluation. -/
theorem EvalExpr_notin_F_add_EvalExpr {S : Store} {E G : Env}
    {F : FunctionTable} {Mt : MacroTable} {e : Expr} {v : Int} {S' : Store}
    (h : EvalExpr S E G F Mt e v S') {x : String}
    (hx : ¬ MIn x F) (fdef : FunctionDefinition) :
    EvalExpr S E G (madd x fdef F) Mt e v S' := by
  refine Ev_F_mono _ h _ ?_
  intro y d hy
  have hxy : x ≠ y := by
    intro hxy
    subst hxy
    exact hx (MapsTo_MIn hy)
  unfold MapsTo at *
  rw [mfind?_madd_ne hxy]
  exact hy


/-- `EvalExpr_Disjoint_update_F_EvalExpr` of `EvalRules.v`: merging a
disjoint set of new definitions into the function table preserves
evaluation. -/
theorem EvalExpr_Disjoint_update_F_EvalExpr {S : Store} {E G : Env}
    {F : FunctionTable} {Mt : MacroTable} {e : Expr} {v : Int} {S' : Store}
    (h : EvalExpr S E G F Mt e v S') {F' : FunctionTable}
    (hdisj : MDisjoint F F') :
    EvalExpr S E G (mupdate F F') Mt e v S' := by
  refine Ev_F_mono _ h _ ?_
  intro y d hy
  have hnF' : ¬ MIn y F' := fun hIn => hdisj y ⟨MapsTo_MIn hy, hIn⟩
  unfold MapsTo at *
  rw [mfind?_mupdate_of_not_MIn hnF']
  exact hy


/-!
## Structural consequences of side-effect freedom

Lean renderings of the `SideEffects.v` lemma family used by `Theorems.v`:
`not_ExprHasSideEffects_S_Equal`,
`not_ExprHasSideEffects_ExprNoCallsFromFunctionTable`, and
`not_ExprHasSideEffects_MacroSubst_not_ExprHasSideEffects`.
-/

/-- A side-effect-free expression contains no call/invocation node
(`not_ExprHasSideEffects_ExprNoCallsFromFunctionTable`). -/
theorem not_SE_no_calls : ∀ e : Expr,
    ExprHasSideEffects e = false → ExprNoCallsB e = true
  | .Num _, _ => rfl
  | .Var _, _ => rfl
  | .ParenExpr e0, h => not_SE_no_calls e0 h
  | .UnExpr _ e0, h => not_SE_no_calls e0 h
  | .BinExpr _ e1 e2, h => by
    simp only [ExprHasSideEffects, Bool.or_eq_false_iff] at h
    simp [ExprNoCallsB, not_SE_no_calls e1 h.1, not_SE_no_calls e2 h.2]
  | .Assign _ _, h => by simp [ExprHasSideEffects] at h
  | .CallOrInvocation _ _, h => by simp [ExprHasSideEffects] at h


/-- Evaluation of a call-free expression is independent of the function and
macro tables. -/
theorem noCalls_tables : ∀ e : Expr, ExprNoCallsB e = true →
    ∀ S E G F Mt v S', EvalExpr S E G F Mt e v S' →
    ∀ F2 M2, EvalExpr S E G F2 M2 e v S'
  | .Num z, hnc, S, E, G, F, Mt, v, S', hev, F2, M2 => by
    cases hev with
    | E_Num _ _ _ _ _ _ _ hEq => exact .E_Num _ _ _ _ _ _ _ hEq
  | .Var x, hnc, S, E, G, F, Mt, v, S', hev, F2, M2 => by
    cases hev with
    | E_LocalVar _ _ _ _ _ _ l _ _ hEq hxl hlv =>
      exact .E_LocalVar _ _ _ _ _ _ l _ _ hEq hxl hlv
    | E_GlobalVar _ _ _ _ _ _ l _ _ hEq hnx hxl hlv =>
      exact .E_GlobalVar _ _ _ _ _ _ l _ _ hEq hnx hxl hlv
  | .ParenExpr e0, hnc, S, E, G, F, Mt, v, S', hev, F2, M2 => by
    cases hev with
    | E_ParenExpr _ _ _ _ _ _ _ _ hsub =>
      exact .E_ParenExpr _ _ _ _ _ _ _ _
        (noCalls_tables e0 hnc _ _ _ _ _ _ _ hsub F2 M2)
  | .UnExpr uo e0, hnc, S, E, G, F, Mt, v, S', hev, F2, M2 => by
    cases hev with
    | E_UnExpr _ _ _ _ _ _ _ _ v0 hsub =>
      exact .E_UnExpr _ _ _ _ _ _ _ _ _
        (noCalls_tables e0 hnc _ _ _ _ _ _ _ hsub F2 M2)
  | .BinExpr bo e1 e2, hnc, S, E, G, F, Mt, v, S', hev, F2, M2 => by
    simp only [ExprNoCallsB, Bool.and_eq_true] at hnc
    cases hev with
    | E_BinExpr _ _ _ _ _ _ _ _ v3 v4 S'0 _ h3 h4 =>
      exact .E_BinExpr _ _ _ _ _ _ _ _ _ _ _ _
        (noCalls_tables e1 hnc.1 _ _ _ _ _ _ _ h3 F2 M2)
        (noCalls_tables e2 hnc.2 _ _ _ _ _ _ _ h4 F2 M2)
  | .Assign x e0, hnc, S, E, G, F, Mt, v, S', hev, F2, M2 => by
    cases hev with
    | E_Assign_Local _ _ _ _ _ l _ _ _ S'0 _ hxl hsub hS2 =>
      exact .E_Assign_Local _ _ _ _ _ l _ _ _ S'0 _ hxl
        (noCalls_tables e0 hnc _ _ _ _ _ _ _ hsub F2 M2) hS2
    | E_Assign_Global _ _ _ _ _ l _ _ _ S'0 _ hnx hxl hsub hS2 =>
      exact .E_Assign_Global _ _ _ _ _ l _ _ _ S'0 _ hnx hxl
        (noCalls_tables e0 hnc _ _ _ _ _ _ _ hsub F2 M2) hS2
  | .CallOrInvocation x es, hnc, S, E, G, F, Mt, v, S', hev, F2, M2 => by
    simp [ExprNoCallsB] at hnc


/-- `not_ExprHasSideEffects_S_Equal`: every terminating evaluation of a
side-effect-free expression leaves the store unchanged (final store equal to
the initial store). -/
theorem not_ExprHasSideEffects_S_Equal : ∀ e : Expr,
    ExprHasSideEffects e = false →
    ∀ S E G F Mt v S', EvalExpr S E G F Mt e v S' → MEqual S' S
  | .Num z, h, S, E, G, F, Mt, v, S', hev => by
    cases hev with
    | E_Num _ _ _ _ _ _ _ hEq => exact hEq.symm
  | .Var x, h, S, E, G, F, Mt, v, S', hev => by
    cases hev with
    | E_LocalVar _ _ _ _ _ _ l _ _ hEq hxl hlv => exact hEq.symm
    | E_GlobalVar _ _ _ _ _ _ l _ _ hEq hnx hxl hlv => exact hEq.symm
  | .ParenExpr e0, h, S, E, G, F, Mt, v, S', hev => by
    cases hev with
    | E_ParenExpr _ _ _ _ _ _ _ _ hsub =>
      exact not_ExprHasSideEffects_S_Equal e0 h _ _ _ _ _ _ _ hsub
  | .UnExpr uo e0, h, S, E, G, F, Mt, v, S', hev => by
    cases hev with
    | E_UnExpr _ _ _ _ _ _ _ _ v0 hsub =>
      exact not_ExprHasSideEffects_S_Equal e0 h _ _ _ _ _ _ _ hsub
  | .BinExpr bo e1 e2, h, S, E, G, F, Mt, v, S', hev => by
    simp only [ExprHasSideEffects, Bool.or_eq_false_iff] at h
    cases hev with
    | E_BinExpr _ _ _ _ _ _ _ _ v3 v4 S'0 _ h3 h4 =>
      exact (not_ExprHasSideEffects_S_Equal e2 h.2 _ _ _ _ _ _ _ h4).trans
        (not_ExprHasSideEffects_S_Equal e1 h.1 _ _ _ _ _ _ _ h3)
  | .Assign x e0, h, S, E, G, F, Mt, v, S', hev => by
    simp [ExprHasSideEffects] at h
  | .CallOrInvocation x es, h, S, E, G, F, Mt, v, S', hev => by
    simp [ExprHasSideEffects] at h


/-- A bare-variable hygiene fact: if `Var x` passes the scope analyzer
against environment `E`, then `x` is not bound in `E`. -/
theorem noVarsB_Var_not_MIn {x : String} {E : Env}
    (h : ExprNoVarsInEnvironmentB (.Var x) E = true) : ¬ MIn x E := by
  simp only [ExprNoVarsInEnvironmentB, Bool.not_eq_true'] at h
  unfold MIn
  rw [h]
  simp


/-- A side-effect-free expression that shares no variables with either
environment evaluates identically under both environments. -/
theorem not_SE_env_swap : ∀ e : Expr, ExprHasSideEffects e = false →
    ∀ (E E2 : Env), ExprNoVarsInEnvironmentB e E = true →
    ExprNoVarsInEnvironmentB e E2 = true →
    ∀ S G F Mt v S', EvalExpr S E G F Mt e v S' →
    EvalExpr S E2 G F Mt e v S'
  | .Num z, hse, E, E2, hE, hE2, S, G, F, Mt, v, S', hev => by
    cases hev with
    | E_Num _ _ _ _ _ _ _ hEq => exact .E_Num _ _ _ _ _ _ _ hEq
  | .Var x, hse, E, E2, hE, hE2, S, G, F, Mt, v, S', hev => by
    cases hev with
    | E_LocalVar _ _ _ _ _ _ l _ _ hEq hxl hlv =>
      exact absurd (MapsTo_MIn hxl) (noVarsB_Var_not_MIn hE)
    | E_GlobalVar _ _ _ _ _ _ l _ _ hEq hnx hxl hlv =>
      exact .E_GlobalVar _ _ _ _ _ _ l _ _ hEq (noVarsB_Var_not_MIn hE2)
        hxl hlv
  | .ParenExpr e0, hse, E, E2, hE, hE2, S, G, F, Mt, v, S', hev => by
    cases hev with
    | E_ParenExpr _ _ _ _ _ _ _ _ hsub =>
      exact .E_ParenExpr _ _ _ _ _ _ _ _
        (not_SE_env_swap e0 hse E E2 hE hE2 _ _ _ _ _ _ hsub)
  | .UnExpr uo e0, hse, E, E2, hE, hE2, S, G, F, Mt, v, S', hev => by
    cases hev with
    | E_UnExpr _ _ _ _ _ _ _ _ v0 hsub =>
      exact .E_UnExpr _ _ _ _ _ _ _ _ _
        (not_SE_env_swap e0 hse E E2 hE hE2 _ _ _ _ _ _ hsub)
  | .BinExpr bo e1 e2, hse, E, E2, hE, hE2, S, G, F, Mt, v, S', hev => by
    simp only [ExprHasSideEffects, Bool.or_eq_false_iff] at hse
    simp only [ExprNoVarsInEnvironmentB, Bool.and_eq_true] at hE hE2
    cases hev with
    | E_BinExpr _ _ _ _ _ _ _ _ v3 v4 S'0 _ h3 h4 =>
      exact .E_BinExpr _ _ _ _ _ _ _ _ _ _ _ _
        (not_SE_env_swap e1 hse.1 E E2 hE.1 hE2.1 _ _ _ _ _ _ h3)
        (not_SE_env_swap e2 hse.2 E E2 hE.2 hE2.2 _ _ _ _ _ _ h4)
  | .Assign x e0, hse, E, E2, hE, hE2, S, G, F, Mt, v, S', hev => by
    simp [ExprHasSideEffects] at hse
  | .CallOrInvocation x es, hse, E, E2, hE, hE2, S, G, F, Mt, v, S', hev => by
    simp [ExprHasSideEffects] at hse


mutual

/-- Every expression passes the scope analyzer against the empty (callee)
environment. -/
theorem noVarsB_nil : ∀ e : Expr, ExprNoVarsInEnvironmentB e [] = true
  | .Num _ => rfl
  | .Var _ => rfl
  | .ParenExpr e0 => noVarsB_nil e0
  | .UnExpr _ e0 => noVarsB_nil e0
  | .BinExpr _ e1 e2 => by
    simp [ExprNoVarsInEnvironmentB, noVarsB_nil e1, noVarsB_nil e2]
  | .Assign _ e0 => noVarsB_nil e0
  | .CallOrInvocation _ es => noVarsListB_nil es


/-- List version of `noVarsB_nil`. -/
theorem noVarsListB_nil : ∀ es : List Expr,
    ExprListNoVarsInEnvironmentB es [] = true
  | [] => rfl
  | e :: es => by
    simp [ExprListNoVarsInEnvironmentB, noVarsB_nil e, noVarsListB_nil es]

end

/-- Single-parameter version of
`not_ExprHasSideEffects_MacroSubst_not_ExprHasSideEffects`. -/
theorem MSubJ_not_SE : ∀ k, MSubJ k → MSubSEMotive k := by
  intro k h
  induction h with
  | MS_Num p e z => intro h0 _; exact h0
  | MS_Var_Replace p e x hpx => intro _ he; exact he
  | MS_Var_No_Replace p e x hne => intro h0 _; exact h0
  | MS_PareExpr p e e0 e0' h ih => intro h0 he; exact ih h0 he
  | MS_UnExpr p e uo e0 e0' h ih => intro h0 he; exact ih h0 he
  | MS_BinExpr p e bo e1 e2 e1' e2' h1 h2 ih1 ih2 =>
    intro h0 he
    simp only [ExprHasSideEffects, Bool.or_eq_false_iff] at h0 ⊢
    exact ⟨ih1 h0.1 he, ih2 h0.2 he⟩
  | MS_Assign_Replace p e x y e0 e0' hpx hey h ih =>
    intro h0 he
    simp [ExprHasSideEffects] at h0
  | MS_Assign_No_Replace p e x e0 e0' hne h ih =>
    intro h0 he
    simp [ExprHasSideEffects] at h0
  | MS_Call_Or_Invocation p e x es es' h ih =>
    intro h0 he
    simp [ExprHasSideEffects] at h0
  | MSL_nil p e => trivial
  | MSL_cons p e e0 e0' es0 es0' h hs ih ihs => trivial


/-- `not_ExprHasSideEffects_MacroSubst_not_ExprHasSideEffects`: substituting
side-effect-free arguments into a side-effect-free macro body yields a
side-effect-free expression. -/
theorem MacroSubst_not_SE :
    ∀ params es mexpr ef, MacroSubst params es mexpr ef →
    ExprHasSideEffects mexpr = false →
    (∀ e ∈ es, ExprHasSideEffects e = false) →
    ExprHasSideEffects ef = false := by
  intro params es mexpr ef h
  induction h with
  | MacroSubst_nil mexpr => intro h0 _; exact h0
  | MacroSubst_cons p e ps es mexpr ef ef' hs hrest ih =>
    intro h0 hes
    have he : ExprHasSideEffects e = false := hes e (by simp)
    have hef : ExprHasSideEffects ef = false := MSubJ_not_SE _ hs h0 he
    exact ih hef (fun e' he' => hes e' (by simp [he']))


/-- Call-by-name and call-by-value evaluation of a side-effect-free
one-parameter macro body with a side-effect-free argument produce the same
value. -/
theorem cbn_cbv_msub (S : Store) (Ec G : Env) (F : FunctionTable)
    (Mt : MacroTable) (v0 : Int) (U : Store) (F2 : FunctionTable)
    (M2 : MacroTable) :
    ∀ k, MSubJ k → CbnCbvMotive S Ec G F Mt v0 U F2 M2 k := by
  intro k h
  induction h with
  | MS_Num p e z =>
    intro hse hE hSEe hev0 hU hU1 Sc hSc v S₁ hcbn Uc hUc v' S₂ hcbv
    cases hcbn with
    | E_Num _ _ _ _ _ _ _ hEqa =>
      cases hcbv with
      | E_Num _ _ _ _ _ _ _ hEqb => rfl
  | MS_Var_Replace p e x hpx =>
    intro hse hE hSEe hev0 hU hU1 Sc hSc v S₁ hcbn Uc hUc v' S₂ hcbv
    subst hpx
    obtain ⟨Se0, hev0⟩ := hev0
    obtain ⟨hv, _⟩ := EvalExpr_deterministic hev0 (S_Equal_EvalExpr hcbn hSc)
    cases hcbv with
    | E_LocalVar _ _ _ _ _ _ l0 _ _ hEq0 hxl0 hlv0 =>
      have hl0 : l0 = 1 := by
        unfold MapsTo at hxl0
        rw [mfind?_madd_self] at hxl0
        exact (Option.some.inj hxl0).symm
      subst hl0
      have h1 : mfind? U 1 = some v' := (hUc 1).symm.trans hlv0
      rw [hU1] at h1
      exact hv.symm.trans (Option.some.inj h1)
    | E_GlobalVar _ _ _ _ _ _ l0 _ _ hEq0 hnx0 hxl0 hlv0 =>
      exact absurd (by unfold MIn; rw [mfind?_madd_self]; rfl) hnx0
  | MS_Var_No_Replace p e x hne =>
    intro hse hE hSEe hev0 hU hU1 Sc hSc v S₁ hcbn Uc hUc v' S₂ hcbv
    have hnotinEc : ¬ MIn x Ec := noVarsB_Var_not_MIn hE
    cases hcbn with
    | E_LocalVar _ _ _ _ _ _ l _ _ hEq hxl hlv =>
      exact absurd (MapsTo_MIn hxl) hnotinEc
    | E_GlobalVar _ _ _ _ _ _ l _ _ hEq hnx hxl hlv =>
      have hlvS : MapsTo l v S := (hSc l).symm.trans hlv
      cases hcbv with
      | E_LocalVar _ _ _ _ _ _ l0 _ _ hEq0 hxl0 hlv0 =>
        unfold MapsTo at hxl0
        rw [mfind?_madd_ne hne] at hxl0
        simp [mfind?] at hxl0
      | E_GlobalVar _ _ _ _ _ _ l0 _ _ hEq0 hnx0 hxl0 hlv0 =>
        have hl : l = l0 := MapsTo_fun hxl hxl0
        subst hl
        have hUl : mfind? U l = mfind? S l := hU l (MapsTo_MIn hlvS)
        have h1 : mfind? U l = some v' := (hUc l).symm.trans hlv0
        rw [hUl] at h1
        unfold MapsTo at hlvS
        rw [hlvS] at h1
        exact Option.some.inj h1
  | MS_PareExpr p e e0 e0' hsub ih =>
    intro hse hE hSEe hev0 hU hU1 Sc hSc v S₁ hcbn Uc hUc v' S₂ hcbv
    cases hcbn with
    | E_ParenExpr _ _ _ _ _ _ _ _ hc =>
      cases hcbv with
      | E_ParenExpr _ _ _ _ _ _ _ _ hb =>
        exact ih hse hE hSEe hev0 hU hU1 Sc hSc _ _ hc Uc hUc _ _ hb
  | MS_UnExpr p e uo e0 e0' hsub ih =>
    intro hse hE hSEe hev0 hU hU1 Sc hSc v S₁ hcbn Uc hUc v' S₂ hcbv
    cases hcbn with
    | E_UnExpr _ _ _ _ _ _ _ _ va hc =>
      cases hcbv with
      | E_UnExpr _ _ _ _ _ _ _ _ vb hb =>
        exact congrArg (unop_to_op uo)
          (ih hse hE hSEe hev0 hU hU1 Sc hSc _ _ hc Uc hUc _ _ hb)
  | MS_BinExpr p e bo e1 e2 e1' e2' hs1 hs2 ih1 ih2 =>
    intro hse hE hSEe hev0 hU hU1 Sc hSc v S₁ hcbn Uc hUc v' S₂ hcbv
    simp only [ExprHasSideEffects, Bool.or_eq_false_iff] at hse
    simp only [ExprNoVarsInEnvironmentB, Bool.and_eq_true] at hE
    cases hcbn with
    | E_BinExpr _ _ _ _ _ _ _ _ va1 va2 Sc' _ hc1 hc2 =>
      cases hcbv with
      | E_BinExpr _ _ _ _ _ _ _ _ vb1 vb2 Uc' _ hb1 hb2 =>
        have hse1' : ExprHasSideEffects e1' = false :=
          MSubJ_not_SE _ hs1 hse.1 hSEe
        have hSc' : MEqual Sc' S :=
          (not_ExprHasSideEffects_S_Equal e1' hse1' _ _ _ _ _ _ _ hc1).trans
            hSc
        have hUc' : MEqual Uc' U :=
          (not_ExprHasSideEffects_S_Equal e1 hse.1 _ _ _ _ _ _ _ hb1).trans
            hUc
        have r1 := ih1 hse.1 hE.1 hSEe hev0 hU hU1 Sc hSc _ _ hc1 Uc hUc
          _ _ hb1
        have r2 := ih2 hse.2 hE.2 hSEe hev0 hU hU1 Sc' hSc' _ _ hc2 Uc' hUc'
          _ _ hb2
        rw [r1, r2]
  | MS_Assign_Replace p e x y e0 e0' hpx hey hsub ih =>
    intro hse
    simp [ExprHasSideEffects] at hse
  | MS_Assign_No_Replace p e x e0 e0' hne hsub ih =>
    intro hse
    simp [ExprHasSideEffects] at hse
  | MS_Call_Or_Invocation p e x es es' hsub ih =>
    intro hse
    simp [ExprHasSideEffects] at hse
  | MSL_nil p e => trivial
  | MSL_cons p e e0 e0' es0 es0' h hs ih ihs => trivial


/-!
## Claim theorems
-/

/-- Any expression containing an `Assign` node is flagged by the side-effect
analyzer. -/
theorem containsAssign_SE : ∀ e : Expr,
    ExprContainsAssign e = true → ExprHasSideEffects e = true
  | .Num _, h => h
  | .Var _, h => h
  | .ParenExpr e0, h => containsAssign_SE e0 h
  | .UnExpr _ e0, h => containsAssign_SE e0 h
  | .BinExpr _ e1 e2, h => by
    simp only [ExprContainsAssign, Bool.or_eq_true] at h
    rcases h with h | h
    · simp [ExprHasSideEffects, containsAssign_SE e1 h]
    · simp [ExprHasSideEffects, containsAssign_SE e2 h]
  | .Assign _ _, _ => rfl
  | .CallOrInvocation _ _, _ => rfl

/-- C3: Evaluation is deterministic — from the same store, environments,
function table and macro table, an expression evaluates to a unique value
and a unique final store (up to map equality) — and macro substitution of
the same parameters and argument expressions into the same body always
produces the same substituted expression. -/
theorem C3_evaluation_and_substitution_deterministic :
    (∀ (S : Store) (E G : Env) (F : FunctionTable) (Mt : MacroTable)
        (e : Expr) (v1 : Int) (S'1 : Store) (v2 : Int) (S'2 : Store),
      EvalExpr S E G F Mt e v1 S'1 → EvalExpr S E G F Mt e v2 S'2 →
      v1 = v2 ∧ MEqual S'1 S'2) ∧
    (∀ (params : List String) (es : List Expr) (mexpr ef ef0 : Expr),
      MacroSubst params es mexpr ef → MacroSubst params es mexpr ef0 →
      ef = ef0) :=
  ⟨fun _ _ _ _ _ _ _ _ _ _ h1 h2 => EvalExpr_deterministic h1 h2,
   fun _ _ _ _ _ h1 h2 => MacroSubst_deterministic _ _ _ _ h1 _ h2⟩

/-- Witness for C3 at a concrete evaluation and substitution. -/
theorem C3_evaluation_and_substitution_deterministic_witness :
    ((7 : Int) = 7 ∧ MEqual ([] : Store) []) ∧ Expr.Num 1 = Expr.Num 1 :=
  ⟨C3_evaluation_and_substitution_deterministic.1 [] [] [] [] [] (.Num 7)
      7 [] 7 [] (.E_Num _ _ _ _ _ _ _ (fun _ => rfl))
      (.E_Num _ _ _ _ _ _ _ (fun _ => rfl)),
   C3_evaluation_and_substitution_deterministic.2 [] [] (.Num 1) (.Num 1)
      (.Num 1) (.MacroSubst_nil _) (.MacroSubst_nil _)⟩

/-- C4: On an `Invocation` node, if the name is bound in the macro table
then evaluation proceeds only by macro expansion (the macro-invocation
premises hold of the derivation), and a function-call evaluation is possible
only when the name is not bound in the macro table — macro definitions
shadow function definitions of the same name. -/
theorem C4_macro_shadows_function : ∀ (S : Store) (E G : Env)
    (F : FunctionTable) (Mt : MacroTable) (x : String) (es : List Expr)
    (v : Int) (S' : Store),
    EvalExpr S E G F Mt (.CallOrInvocation x es) v S' →
    (MIn x Mt →
      ∃ params mexpr ef, MapsTo x (params, mexpr) Mt ∧ params.Nodup ∧
        MacroSubst params es mexpr ef ∧
        EvalExpr S E G F (mremove x Mt) ef v S') ∧
    (¬ MIn x Mt → ∃ fd, MapsTo x fd F) := by
  intro S E G F Mt x es v S' h
  cases h with
  | E_FunctionCall _ _ _ _ _ _ _ params0 fstmt0 fexpr0 l0 ls0 Ef0 Sargs0
      S'0 S''0 S'''0 S''''0 _ _ vs0 hnM0 hxF0 hnd0 hargs0 hEf0 hSargs0
      hdisj0 hS''0 hstmt0 hfexpr0 hS'''''0 =>
    exact ⟨fun hIn => absurd hIn hnM0, fun _ => ⟨_, hxF0⟩⟩
  | E_MacroInvocation _ _ _ _ _ _ params0 _ mexpr0 M'0 ef0 _ _ hxM0 hM'0
      hnd0 hsub0 hbody0 =>
    subst hM'0
    exact ⟨fun _ => ⟨params0, mexpr0, ef0, hxM0, hnd0, hsub0, hbody0⟩,
      fun hn => absurd (MapsTo_MIn hxM0) hn⟩

/-- Witness for C4 at a concrete macro invocation. -/
theorem C4_macro_shadows_function_witness :
    ∃ params mexpr ef,
      MapsTo "X" (params, mexpr) ([("X", ([], Expr.Num 1))] : MacroTable) ∧
      params.Nodup ∧ MacroSubst params [] mexpr ef ∧
      EvalExpr [] [] [] []
        (mremove "X" ([("X", ([], Expr.Num 1))] : MacroTable)) ef 1 [] :=
  (C4_macro_shadows_function [] [] [] [] [("X", ([], Expr.Num 1))] "X" [] 1
      []
      (.E_MacroInvocation [] [] [] [] [("X", ([], Expr.Num 1))] "X" [] []
        (.Num 1) (mremove "X" [("X", ([], Expr.Num 1))]) (.Num 1) [] 1
        rfl rfl List.nodup_nil (.MacroSubst_nil _)
        (.E_Num _ _ _ _ _ _ _ (fun _ => rfl)))).1 rfl

/-- C5: A macro invocation's fully-substituted body is evaluated under a
macro table from which the invoked macro itself has been removed, so no
evaluation of a macro's body can recursively expand that same macro. -/
theorem C5_macro_body_evaluated_without_self : ∀ (S : Store) (E G : Env)
    (F : FunctionTable) (Mt : MacroTable) (x : String) (es : List Expr)
    (v : Int) (S' : Store),
    EvalExpr S E G F Mt (.CallOrInvocation x es) v S' → MIn x Mt →
    ∃ params mexpr ef, MapsTo x (params, mexpr) Mt ∧
      MacroSubst params es mexpr ef ∧
      EvalExpr S E G F (mremove x Mt) ef v S' ∧
      ¬ MIn x (mremove x Mt) := by
  intro S E G F Mt x es v S' h hIn
  cases h with
  | E_FunctionCall _ _ _ _ _ _ _ params0 fstmt0 fexpr0 l0 ls0 Ef0 Sargs0
      S'0 S''0 S'''0 S''''0 _ _ vs0 hnM0 hxF0 hnd0 hargs0 hEf0 hSargs0
      hdisj0 hS''0 hstmt0 hfexpr0 hS'''''0 =>
    exact absurd hIn hnM0
  | E_MacroInvocation _ _ _ _ _ _ params0 _ mexpr0 M'0 ef0 _ _ hxM0 hM'0
      hnd0 hsub0 hbody0 =>
    subst hM'0
    exact ⟨params0, mexpr0, ef0, hxM0, hsub0, hbody0,
      not_MIn_mremove_self _ _⟩

/-- Witness for C5 at a concrete macro invocation. -/
theorem C5_macro_body_evaluated_without_self_witness :
    ∃ params mexpr ef,
      MapsTo "Y" (params, mexpr) ([("Y", ([], Expr.Num 2))] : MacroTable) ∧
      MacroSubst params [] mexpr ef ∧
      EvalExpr [] [] [] []
        (mremove "Y" ([("Y", ([], Expr.Num 2))] : MacroTable)) ef 2 [] ∧
      ¬ MIn "Y" (mremove "Y" ([("Y", ([], Expr.Num 2))] : MacroTable)) :=
  C5_macro_body_evaluated_without_self [] [] [] [] [("Y", ([], Expr.Num 2))]
    "Y" [] 2 []
    (.E_MacroInvocation [] [] [] [] [("Y", ([], Expr.Num 2))] "Y" [] []
      (.Num 2) (mremove "Y" [("Y", ([], Expr.Num 2))]) (.Num 2) [] 2
      rfl rfl List.nodup_nil (.MacroSubst_nil _)
      (.E_Num _ _ _ _ _ _ _ (fun _ => rfl))) rfl

/-- C6: If the side-effect analyzer returns `false` on an expression, every
terminating evaluation of it leaves the store unchanged (final store equal
to the initial store as a map); and every expression containing an `Assign`
node is flagged by the analyzer as side-effecting. -/
theorem C6_side_effect_analyzer_sound :
    (∀ e : Expr, ExprHasSideEffects e = false →
      ∀ (S : Store) (E G : Env) (F : FunctionTable) (Mt : MacroTable)
        (v : Int) (S' : Store),
        EvalExpr S E G F Mt e v S' → MEqual S' S) ∧
    (∀ e : Expr, ExprContainsAssign e = true →
      ExprHasSideEffects e = true) :=
  ⟨fun e hse S E G F Mt v S' hev =>
      not_ExprHasSideEffects_S_Equal e hse S E G F Mt v S' hev,
   containsAssign_SE⟩

/-- Witness for C6 at a concrete side-effect-free evaluation and a concrete
assignment expression. -/
theorem C6_side_effect_analyzer_sound_witness :
    MEqual [((0 : Nat), (3 : Int))] [((0 : Nat), (3 : Int))] ∧
      ExprHasSideEffects (.Assign "x" (.Num 1)) = true :=
  ⟨C6_side_effect_analyzer_sound.1 (.BinExpr .Plus (.Num 1) (.Num 2)) rfl
      [(0, 3)] [] [] [] [] 3 [(0, 3)]
      (.E_BinExpr _ _ _ _ _ .Plus _ _ 1 2 _ _
        (.E_Num _ _ _ _ _ _ _ (fun _ => rfl))
        (.E_Num _ _ _ _ _ _ _ (fun _ => rfl))),
   C6_side_effect_analyzer_sound.2 (.Assign "x" (.Num 1)) rfl⟩

/-- C10: Evaluation is preserved — same value, same final store — when the
function table is extended with a binding for a name not present in it, or
merged with any disjoint set of definitions; so emitting fresh-named
generated functions never changes the evaluation of existing
expressions. -/
theorem C10_fresh_function_names_preserve_evaluation :
    (∀ (S : Store) (E G : Env) (F : FunctionTable) (Mt : MacroTable)
        (e : Expr) (v : Int) (S' : Store) (x : String)
        (fd : FunctionDefinition),
      EvalExpr S E G F Mt e v S' → ¬ MIn x F →
      EvalExpr S E G (madd x fd F) Mt e v S') ∧
    (∀ (S : Store) (E G : Env) (F : FunctionTable) (Mt : MacroTable)
        (e : Expr) (v : Int) (S' : Store) (F' : FunctionTable),
      EvalExpr S E G F Mt e v S' → MDisjoint F F' →
      EvalExpr S E G (mupdate F F') Mt e v S') :=
  ⟨fun _ _ _ _ _ _ _ _ _ fd h hx => EvalExpr_notin_F_add_EvalExpr h hx fd,
   fun _ _ _ _ _ _ _ _ _ h hd => EvalExpr_Disjoint_update_F_EvalExpr h hd⟩

/-- Witness for C10 at a concrete evaluation, a concrete fresh name, and a
concrete disjoint table. -/
theorem C10_fresh_function_names_preserve_evaluation_witness :
    EvalExpr [] [] [] (madd "f" ([], Stmt.Skip, Expr.Num 0) []) []
      (.Num 2) 2 [] ∧
    EvalExpr [] [] [] (mupdate [] [("g", ([], Stmt.Skip, Expr.Num 0))]) []
      (.Num 2) 2 [] :=
  ⟨C10_fresh_function_names_preserve_evaluation.1 [] [] [] [] [] (.Num 2) 2
      [] "f" ([], Stmt.Skip, Expr.Num 0)
      (.E_Num _ _ _ _ _ _ _ (fun _ => rfl))
      (by intro h; simp [MIn, mfind?] at h),
   C10_fresh_function_names_preserve_evaluation.2 [] [] [] [] [] (.Num 2) 2
      [] [("g", ([], Stmt.Skip, Expr.Num 0))]
      (.E_Num _ _ _ _ _ _ _ (fun _ => rfl))
      (by intro k hk; exact absurd hk.1 (by simp [MIn, mfind?]))⟩

/-- C8: An object-like macro whose body is a bare variable reference to a
name bound in the invocation site's local environment is judged
`CapturesCallerScope`, while the same macro is judged `Transformable` when
that name is not a caller local (resolving only to a global). -/
theorem C8_bare_local_variable_macro_hygiene : ∀ (F : FunctionTable)
    (Mt : MacroTable) (Ec : Env),
    (MIn "x" Ec →
      decideTransformable F Mt Ec [] (.Var "x") [] =
        .NotTransformable .CapturesCallerScope) ∧
    (¬ MIn "x" Ec →
      decideTransformable F Mt Ec [] (.Var "x") [] =
        .Transformable .ObjectLikeToNullaryFunction) := by
  intro F Mt Ec
  constructor
  · intro hIn
    have hx : (mfind? Ec "x").isSome = true := hIn
    simp [decideTransformable, ExprNoMacroInvocationsB,
      ExprNoVarsInEnvironmentB, hx]
  · intro hn
    have hx : (mfind? Ec "x").isSome = false := by
      cases hfx : (mfind? Ec "x").isSome with
      | false => rfl
      | true => exact absurd hfx hn
    simp [decideTransformable, ExprNoMacroInvocationsB,
      ExprNoVarsInEnvironmentB, isBareVar, hx]

/-- Witness for C8: the caller environment binding `x` locally yields
`CapturesCallerScope`; the empty caller environment yields a transformable
verdict. -/
theorem C8_bare_local_variable_macro_hygiene_witness :
    decideTransformable [] [] [("x", (0 : Nat))] [] (.Var "x") [] =
      .NotTransformable .CapturesCallerScope ∧
    decideTransformable [] [] [] [] (.Var "x") [] =
      .Transformable .ObjectLikeToNullaryFunction :=
  ⟨(C8_bare_local_variable_macro_hygiene [] [] [("x", 0)]).1 rfl,
   (C8_bare_local_variable_macro_hygiene [] [] []).2
     (by intro h; simp [MIn, mfind?] at h)⟩

/-- C9: the decision procedure, as modelled from the spec's decision table
with its naive (`Assign`-only) side-effect analyzer, judges the invocation
`A_THEN_B(p, *p)` Transformable — the dereference argument is not flagged —
contradicting the claim's (and the test fixture's) expected
`NotTransformable` verdict. -/
theorem C9_A_THEN_B_null_deref_judged_transformable :
    decideTransformable []
      [("A_THEN_B", (["a", "b"], A_THEN_B_body))] [("p", (0 : Nat))]
      ["a", "b"] A_THEN_B_body
      [.Var "p", .UnExpr .Deref (.Var "p")] =
      .Transformable .FunctionLikeToFunction := by
  decide

/-- C2: For a one-parameter function-like macro whose body has no side
effects, no macro invocations, and no variables from the caller's local
environment, and a side-effect-free, invocation-free argument, evaluating
the argument-substituted body under the caller environment (call-by-name)
yields the same value as evaluating the body as a function with the
argument evaluated once and bound to the parameter (call-by-value).  This
generalises the source's
`not_ExprSideEffects_ExprNoVarsInEnvironment_call_by_name_call_by_value`
from bare-variable bodies to arbitrary bodies (so it covers parameters read
more than once). -/
theorem C2_call_by_name_call_by_value :
    ∀ (mexpr : Expr), ExprHasSideEffects mexpr = false →
    ∀ (F : FunctionTable) (Mt : MacroTable),
      ExprNoMacroInvocationsB mexpr F Mt = true →
    ∀ (Ecaller : Env), ExprNoVarsInEnvironmentB mexpr Ecaller = true →
    ∀ (e : Expr), ExprHasSideEffects e = false →
      ExprNoMacroInvocationsB e F Mt = true →
    ∀ (p : String) (ef : Expr), MacroSubst [p] [e] mexpr ef →
    ∀ (S : Store) (G : Env) (v : Int) (Sn3 : Store),
      EvalExpr S Ecaller G F Mt ef v Sn3 →
    ∀ (v0 : Int) (S' : Store) (Ef : Env) (Sargs : Store) (l : Nat)
        (ls : List Nat),
      EvalExprList S Ecaller G F Mt [p] [e] [v0] S' Ef Sargs l ls →
      MDisjoint S' Sargs →
    ∀ (v1 : Int) (Sn30 : Store),
      EvalExpr (mupdate S' Sargs) Ef G F Mt mexpr v1 Sn30 →
    v = v1 := by
  intro mexpr hse F Mt hnmi Ecaller hE e hsee hnmie p ef hsub S G v Sn3
    hcbn v0 S' Ef Sargs l ls hlist hdisj v1 Sn30 hcbv
  cases hlist with
  | E_ExprList_cons _ _ _ _ _ _ _ _ Snext _ _ _ _ Ef'0 Sargs'0 l0 ls0
      hhead hrest hnl hnd hnp =>
    cases hrest with
    | E_ExprList_nil _ _ _ _ _ _ hEqn =>
      cases hsub with
      | MacroSubst_cons _ _ _ _ _ ef0 _ hs1 hsubrest =>
        cases hsubrest with
        | MacroSubst_nil _ =>
          have hSnextS : MEqual Snext S :=
            not_ExprHasSideEffects_S_Equal e hsee _ _ _ _ _ _ _ hhead
          have hSfS : MEqual S' S := hEqn.symm.trans hSnextS
          have hU1 : mfind? (mupdate S' (madd 1 v0 [])) 1 = some v0 := by
            simp [mupdate, madd, mfind?]
          have hU : ∀ k, MIn k S →
              mfind? (mupdate S' (madd 1 v0 [])) k = mfind? S k := by
            intro k hk
            by_cases hk1 : (1 : Nat) = k
            · subst hk1
              have h1Sf : MIn 1 S' := MIn_of_MEqual hSfS.symm hk
              have h1Sa : MIn (1 : Nat) (madd 1 v0 []) := by
                unfold MIn
                rw [mfind?_madd_self]
                rfl
              exact absurd ⟨h1Sf, h1Sa⟩ (hdisj 1)
            · have hstep : mfind? (mupdate S' (madd 1 v0 [])) k =
                  mfind? S' k := by
                show mfind? ((1, v0) :: S') k = mfind? S' k
                simp [mfind?, hk1]
              rw [hstep, hSfS k]
          exact cbn_cbv_msub S Ecaller G F Mt v0
            (mupdate S' (madd 1 v0 [])) F Mt _ hs1 hse hE hsee
            ⟨Snext, hhead⟩ hU hU1 S (MEqual.refl S) v Sn3 hcbn
            (mupdate S' (madd 1 v0 []))
            (MEqual.refl (mupdate S' (madd 1 v0 []))) v1 Sn30 hcbv

/-- Witness for C2 at the macro `#define M(a) a` applied to the literal
`3`. -/
theorem C2_call_by_name_call_by_value_witness :
    ExprHasSideEffects (.Var "a") = false ∧ (3 : Int) = 3 :=
  ⟨rfl,
   C2_call_by_name_call_by_value (.Var "a") rfl [] [] rfl [] rfl
     (.Num 3) rfl rfl "a" (.Num 3)
     (.MacroSubst_cons "a" (.Num 3) [] [] (.Var "a") (.Num 3) (.Num 3)
       (.MS_Var_Replace _ _ _ rfl) (.MacroSubst_nil _))
     [] [] 3 []
     (.E_Num _ _ _ _ _ _ _ (fun _ => rfl))
     3 [] (madd "a" 1 []) (madd 1 3 []) 1 [1, 0]
     (.E_ExprList_cons [] [] [] [] [] "a" (.Num 3) 3 [] [] [] [] [] [] []
       1 [0]
       (.E_Num _ _ _ _ _ _ _ (fun _ => rfl))
       (.E_ExprList_nil _ _ _ _ _ _ (fun _ => rfl))
       (by intro h; simp [MIn, mfind?] at h)
       (by decide)
       (by intro h; simp [MIn, mfind?] at h))
     (by intro k hk; exact absurd hk.1 (by simp [MIn, mfind?]))
     3 (mupdate [] (madd 1 3 []))
     (.E_LocalVar _ _ _ _ _ "a" 1 3 _ (fun _ => rfl) rfl rfl)⟩

/-- C7: Every transformation step either leaves the site unchanged (not
transformable) or rewrites the invocation to a call of a fresh function
whose body is `Skip` and whose return expression is the macro body
unchanged, with a parameter list mirroring the macro's (empty for an
object-like macro) and the argument expressions carried over unchanged. -/
theorem C7_generated_definition_shape :
    ∀ (Mt : MacroTable) (F : FunctionTable) (e : Expr)
      (F' : FunctionTable) (e' : Expr),
    TransformExpr Mt F e F' e' →
    (e' = e ∧ F' = F) ∨
    ∃ x fname params mexpr es,
      e = .CallOrInvocation x es ∧
      e' = .CallOrInvocation fname es ∧
      MapsTo x (params, mexpr) Mt ∧
      MapsTo fname (params, Stmt.Skip, mexpr) F' ∧
      es.length = params.length := by
  intro Mt F e F' e' h
  cases h with
  | Transform_MacroNotTransformable x es params mexpr hxM =>
    exact .inl ⟨rfl, rfl⟩
  | Transform_FunctionLikeMacro1Arg x p y e0 fname newdef F'c hxM hse hhyg
      hnf hnm hnddef hF' =>
    subst hnddef
    subst hF'
    refine .inr ⟨x, fname, [p], .Var y, [e0], rfl, rfl, hxM, ?_, rfl⟩
    unfold MapsTo
    exact mfind?_madd_self _ _ _
  | Transform_ObjectLikeMacro x mexpr fname newdef F'c hxM hse hhyg hnf hnm
      hnddef hF' =>
    subst hnddef
    subst hF'
    refine .inr ⟨x, fname, [], mexpr, [], rfl, rfl, hxM, ?_, rfl⟩
    unfold MapsTo
    exact mfind?_madd_self _ _ _

/-- Witness for C7 at a concrete object-like transformation
(`#define X 42` rewritten to a call of the generated nullary function
`f`). -/
theorem C7_generated_definition_shape_witness :
    (Expr.CallOrInvocation "f" ([] : List Expr) =
        Expr.CallOrInvocation "X" [] ∧
      madd "f" ([], Stmt.Skip, Expr.Num 42) [] = ([] : FunctionTable)) ∨
    ∃ x fname params mexpr es,
      Expr.CallOrInvocation "X" ([] : List Expr) =
        .CallOrInvocation x es ∧
      Expr.CallOrInvocation "f" ([] : List Expr) =
        .CallOrInvocation fname es ∧
      MapsTo x (params, mexpr) ([("X", ([], Expr.Num 42))] : MacroTable) ∧
      MapsTo fname (params, Stmt.Skip, mexpr)
        (madd "f" ([], Stmt.Skip, Expr.Num 42) []) ∧
      es.length = params.length :=
  C7_generated_definition_shape [("X", ([], Expr.Num 42))] [] _ _ _
    (.Transform_ObjectLikeMacro [("X", ([], Expr.Num 42))] [] "X"
      (.Num 42) "f" ([], Stmt.Skip, Expr.Num 42)
      (madd "f" ([], Stmt.Skip, Expr.Num 42) [])
      rfl rfl (fun _ _ _ _ _ _ => rfl)
      (by intro h; simp [MIn, mfind?] at h)
      (by intro h; simp [MIn, mfind?] at h)
      rfl rfl)

/-- C1: Soundness of the transformation (`transform_expr_sound_mut_v_s` of
`Theorems.v`): for every macro invocation site related by the
transformation relation (original expression under `F`, transformed
expression under the extended table `F'`), and for every initial store and
environments under which both expressions terminate, the two evaluations
produce the same value and final stores that are equal as maps. -/
theorem C1_transform_expr_sound :
    ∀ (Mt : MacroTable) (F : FunctionTable) (e : Expr)
      (F' : FunctionTable) (e' : Expr),
    TransformExpr Mt F e F' e' →
    ∀ (S : Store) (E G : Env) (v1 v2 : Int) (S'1 S'2 : Store),
      EvalExpr S E G F Mt e v1 S'1 →
      EvalExpr S E G F' Mt e' v2 S'2 →
      v1 = v2 ∧ MEqual S'1 S'2 := by
  intro Mt F e F' e' h
  cases h with
  | Transform_MacroNotTransformable x es params mexpr hxM =>
    intro S E G v1 v2 S'1 S'2 h1 h2
    exact EvalExpr_deterministic h1 h2
  | Transform_ObjectLikeMacro x mexpr fname newdef F'c hxM hse hhyg hnf hnm
      hnddef hF' =>
    subst hnddef
    subst hF'
    intro S E G v1 v2 S'1 S'2 h1 h2
    -- invert the untransformed evaluation: it must be a macro invocation
    cases h1 with
    | E_FunctionCall _ _ _ _ _ _ _ params0 fstmt0 fexpr0 l0 ls0 Ef0 Sargs0
        S'0 S''0 S'''0 S''''0 _ _ vs0 hnM0 hxF0 hnd0 hargs0 hEf0 hSargs0
        hdisj0 hS''0 hstmt0 hfexpr0 hS'''''0 =>
      exact absurd (MapsTo_MIn hxM) hnM0
    | E_MacroInvocation _ _ _ _ _ _ params0 _ mexpr0 M'0 ef0 _ _ hxM0 hM'0
        hnd0 hsub0 hbody0 =>
      have hdef := MapsTo_fun hxM hxM0
      injection hdef with hp hme
      subst hp
      subst hme
      subst hM'0
      cases hsub0 with
      | MacroSubst_nil _ =>
        -- the macro body is side-effect free, call free, and (by the
        -- hygiene premise) shares no variables with the caller env
        have hNoVars : ExprNoVarsInEnvironmentB mexpr E = true :=
          hhyg S E G v1 S'1 hbody0
        have hS'1S : MEqual S'1 S :=
          not_ExprHasSideEffects_S_Equal mexpr hse _ _ _ _ _ _ _ hbody0
        -- invert the transformed evaluation: it must be a function call
        cases h2 with
        | E_MacroInvocation _ _ _ _ _ _ params1 _ mexpr1 M'1 ef1 _ _ hxM1
            hM'1 hnd1 hsub1 hbody1 =>
          exact absurd (MapsTo_MIn hxM1) hnm
        | E_FunctionCall _ _ _ _ _ _ _ params1 fstmt1 fexpr1 l1 ls1 Ef1
            Sargs1 S'0 S''0 S'''0 S''''0 _ _ vs1 hnM1 hxF1 hnd1 hargs1
            hEf1 hSargs1 hdisj1 hS''1 hstmt1 hfexpr1 hS'''''1 =>
          have hdef2 := (mfind?_madd_self fname
            ([], Stmt.Skip, mexpr) F).symm.trans hxF1
          injection hdef2 with hdef2
          injection hdef2 with hA hdef2
          injection hdef2 with hB hC
          subst hA
          subst hB
          subst hC
          cases hargs1 with
          | E_ExprList_nil _ _ _ _ _ _ hEqargs =>
            have hS''S : MEqual S''0 S :=
              hS''1.trans (MEqual.symm hEqargs)
            cases hstmt1 with
            | E_Skip _ _ _ _ _ _ hEqskip =>
              have hS'''S : MEqual S'''0 S := hEqskip.symm.trans hS''S
              -- move the untransformed body evaluation to the transformed
              -- side's tables and environment
              have hb1 := noCalls_tables mexpr (not_SE_no_calls mexpr hse)
                _ _ _ _ _ _ _ hbody0
                (madd fname ([], Stmt.Skip, mexpr) F) Mt
              have hb2 := not_SE_env_swap mexpr hse E [] hNoVars
                (noVarsB_nil mexpr) _ _ _ _ _ _ hb1
              have hf := S_Equal_EvalExpr hfexpr1 hS'''S
              obtain ⟨hveq, hSeq⟩ := EvalExpr_deterministic hb2 hf
              refine ⟨hveq, ?_⟩
              have hS''''S : MEqual S''''0 S := hSeq.symm.trans hS'1S
              exact hS'1S.trans
                ((mrestrict_self_of_MEqual hS''''S).symm.trans
                  hS'''''1.symm)
  | Transform_FunctionLikeMacro1Arg x p y earg fname newdef F'c hxM hsearg
      hhyg hnf hnm hnddef hF' =>
    subst hnddef
    subst hF'
    intro S E G v1 v2 S'1 S'2 h1 h2
    cases h1 with
    | E_FunctionCall _ _ _ _ _ _ _ params0 fstmt0 fexpr0 l0 ls0 Ef0 Sargs0
        S'0 S''0 S'''0 S''''0 _ _ vs0 hnM0 hxF0 hnd0 hargs0 hEf0 hSargs0
        hdisj0 hS''0 hstmt0 hfexpr0 hS'''''0 =>
      exact absurd (MapsTo_MIn hxM) hnM0
    | E_MacroInvocation _ _ _ _ _ _ params0 _ mexpr0 M'0 ef0 _ _ hxM0 hM'0
        hnd0 hsub0 hbody0 =>
      have hdef := MapsTo_fun hxM hxM0
      injection hdef with hp hme
      subst hp
      subst hme
      subst hM'0
      -- invert the transformed evaluation: it must be a function call
      cases h2 with
      | E_MacroInvocation _ _ _ _ _ _ params1 _ mexpr1 M'1 ef1 _ _ hxM1
          hM'1 hnd1 hsub1 hbody1 =>
        exact absurd (MapsTo_MIn hxM1) hnm
      | E_FunctionCall _ _ _ _ _ _ _ params1 fstmt1 fexpr1 l1 ls1 Ef1
          Sargs1 S'0 S''0 S'''0 S''''0 _ _ vs1 hnM1 hxF1 hnd1 hargs1
          hEf1 hSargs1 hdisj1 hS''1 hstmt1 hfexpr1 hS'''''1 =>
        have hdef2 := (mfind?_madd_self fname
          ([p], Stmt.Skip, Expr.Var y) F).symm.trans hxF1
        injection hdef2 with hdef2
        injection hdef2 with hA hdef2
        injection hdef2 with hB hC
        subst hA
        subst hB
        subst hC
        -- invert the argument-list evaluation (a single argument)
        cases hargs1 with
        | E_ExprList_cons _ _ _ _ _ _ _ v0 Snext _ _ _ _ Ef'1 Sargs'1 lt1
            lst1 hheadarg hrestarg hnl1 hndp1 hnp1 =>
          cases hrestarg with
          | E_ExprList_nil _ _ _ _ _ _ hEqargs =>
            -- the argument is side-effect free, so stores stay equal to S
            have hSnextS : MEqual Snext S :=
              not_ExprHasSideEffects_S_Equal earg hsearg _ _ _ _ _ _ _
                hheadarg
            have hS'0S : MEqual S'0 S := hEqargs.symm.trans hSnextS
            have hS''eq : MEqual S''0 (mupdate S'0 (madd 1 v0 [])) := hS''1
            cases hstmt1 with
            | E_Skip _ _ _ _ _ _ hEqskip =>
              have hS3eq : MEqual S'''0 (mupdate S'0 (madd 1 v0 [])) :=
                hEqskip.symm.trans hS''eq
              -- invert the macro substitution into the body `Var y`
              cases hsub0 with
              | MacroSubst_cons _ _ _ _ _ ef00 _ hs1 hrest2 =>
                cases hrest2 with
                | MacroSubst_nil _ =>
                  cases hs1 with
                  | MS_Var_Replace _ _ _ hpy =>
                    -- the body is the parameter: the substituted body is
                    -- the argument itself
                    subst hpy
                    have hb1 := noCalls_tables earg
                      (not_SE_no_calls earg hsearg) _ _ _ _ _ _ _ hbody0
                      (madd fname ([p], Stmt.Skip, Expr.Var p) F) Mt
                    obtain ⟨hv10, hS1n⟩ :=
                      EvalExpr_deterministic hb1 hheadarg
                    cases hfexpr1 with
                    | E_LocalVar _ _ _ _ _ _ l2 _ _ hEqv hxl2 hlv2 =>
                      have hl2 : l2 = 1 :=
                        (Option.some.inj ((mfind?_madd_self p 1
                          ([] : Env)).symm.trans hxl2)).symm
                      subst hl2
                      have hv2v0 : v2 = v0 := by
                        have ha : mfind? (mupdate S'0 (madd 1 v0 [])) 1 =
                            some v2 := (hS3eq 1).symm.trans hlv2
                        have hb : mfind? (mupdate S'0 (madd 1 v0 [])) 1 =
                            some v0 := by simp [mupdate, madd, mfind?]
                        rw [hb] at ha
                        exact (Option.some.inj ha).symm
                      constructor
                      · exact hv10.trans hv2v0.symm
                      · have hS1S : MEqual S'1 S := hS1n.trans hSnextS
                        have hS''''eq : MEqual S''''0
                            (mupdate S'0 (madd 1 v0 [])) :=
                          hEqv.symm.trans hS3eq
                        have hrest : MEqual (mrestrict S''''0 S) S :=
                          (mrestrict_congr_left hS''''eq S).trans
                            (mdisjoint_restrict_update hdisj1 hS'0S)
                        exact hS1S.trans (hrest.symm.trans hS'''''1.symm)
                    | E_GlobalVar _ _ _ _ _ _ l2 _ _ hEqv hnx2 hxl2 hlv2 =>
                      refine absurd ?_ hnx2
                      unfold MIn
                      rw [mfind?_madd_self]
                      rfl
                  | MS_Var_No_Replace _ _ _ hne =>
                    -- the body is a variable distinct from the parameter:
                    -- hygiene makes it a global on both sides
                    have hNoVars : ExprNoVarsInEnvironmentB (.Var y) E =
                        true := hhyg S E G v1 S'1 hbody0
                    have hYE : ¬ MIn y E := noVarsB_Var_not_MIn hNoVars
                    cases hbody0 with
                    | E_LocalVar _ _ _ _ _ _ l _ _ hEqb hyl hlv =>
                      exact absurd (MapsTo_MIn hyl) hYE
                    | E_GlobalVar _ _ _ _ _ _ l _ _ hEqb hnx hyl hlv =>
                      cases hfexpr1 with
                      | E_LocalVar _ _ _ _ _ _ l2 _ _ hEqv hxl2 hlv2 =>
                        exfalso
                        unfold MapsTo at hxl2
                        rw [mfind?_madd_ne hne] at hxl2
                        simp [mfind?] at hxl2
                      | E_GlobalVar _ _ _ _ _ _ l2 _ _ hEqv hnx2 hyl2
                          hlv2 =>
                        have hl : l = l2 := MapsTo_fun hyl hyl2
                        subst hl
                        have hInS : MIn l S := MapsTo_MIn hlv
                        have hInS'0 : MIn l S'0 :=
                          MIn_of_MEqual hS'0S.symm hInS
                        have hnSargs : ¬ MIn l (madd 1 v0 []) :=
                          fun hIn => hdisj1 l ⟨hInS'0, hIn⟩
                        have ha : mfind? (mupdate S'0 (madd 1 v0 [])) l =
                            some v2 := (hS3eq l).symm.trans hlv2
                        rw [mfind?_mupdate_of_not_MIn hnSargs] at ha
                        rw [hS'0S l] at ha
                        unfold MapsTo at hlv
                        rw [hlv] at ha
                        constructor
                        · exact Option.some.inj ha
                        · have hS''''eq : MEqual S''''0
                              (mupdate S'0 (madd 1 v0 [])) :=
                            hEqv.symm.trans hS3eq
                          have hrest : MEqual (mrestrict S''''0 S) S :=
                            (mrestrict_congr_left hS''''eq S).trans
                              (mdisjoint_restrict_update hdisj1 hS'0S)
                          exact hEqb.symm.trans
                            (hrest.symm.trans hS'''''1.symm)

/-- Witness for C1: the object-like macro `#define X 42` transformed to a
call of the generated nullary function `f`, evaluated from the empty
store. -/
theorem C1_transform_expr_sound_witness :
    (42 : Int) = 42 ∧ MEqual ([] : Store) [] :=
  C1_transform_expr_sound [("X", ([], Expr.Num 42))] []
    (.CallOrInvocation "X" [])
    (madd "f" ([], Stmt.Skip, Expr.Num 42) [])
    (.CallOrInvocation "f" [])
    (.Transform_ObjectLikeMacro [("X", ([], Expr.Num 42))] [] "X"
      (.Num 42) "f" ([], Stmt.Skip, Expr.Num 42)
      (madd "f" ([], Stmt.Skip, Expr.Num 42) [])
      rfl rfl (fun _ _ _ _ _ _ => rfl)
      (by intro h; simp [MIn, mfind?] at h)
      (by intro h; simp [MIn, mfind?] at h)
      rfl rfl)
    [] [] [] 42 42 [] []
    (.E_MacroInvocation [] [] [] [] [("X", ([], Expr.Num 42))] "X" [] []
      (.Num 42) (mremove "X" [("X", ([], Expr.Num 42))]) (.Num 42) [] 42
      rfl rfl List.nodup_nil (.MacroSubst_nil _)
      (.E_Num _ _ _ _ _ _ _ (fun _ => rfl)))
    (.E_FunctionCall [] [] [] (madd "f" ([], Stmt.Skip, Expr.Num 42) [])
      [("X", ([], Expr.Num 42))] "f" [] [] Stmt.Skip (.Num 42) 1 [0] [] []
      [] [] [] [] [] 42 []
      (by intro h; simp [MIn, mfind?] at h)
      rfl List.nodup_nil
      (.E_ExprList_nil _ _ _ _ _ _ (fun _ => rfl))
      (fun _ => rfl) (fun _ => rfl)
      (by intro k hk; exact absurd hk.1 (by simp [MIn, mfind?]))
      (fun _ => rfl)
      (.E_Skip _ _ _ _ _ _ (fun _ => rfl))
      (.E_Num _ _ _ _ _ _ _ (fun _ => rfl))
      (fun _ => rfl))
